import Mathlib

/-!
# Hybrid A* open-space planner (`modules/planning/planner/open_space/hybrid_a_star.cc`)

A shallow embedding of `HybridAStar` and a verification of its specification.

Modelling conventions

* `double` values are elements of a linearly ordered field `K` with a floor
  function (the rationals in every concrete run).  Rounding is modelled where
  the results of the planner depend on it: the conversion of a `std::size_t` to
  `double` is `to_double`, and every inexact operation of the steering
  expression (lines 88-94) and of the loop bound `arc / step_size_` (lines 100
  and 109) is followed by `Conf.fl`, the rounding to the nearest `double`
  (`round_double` in every concrete run).  The pose updates of the integration
  loop are over real arithmetic.  Overflow, infinities and NaN are not
  modelled, except that the integration loop is recognised as never exiting
  when `step_size_` is zero and the arc positive.  For a `next_node_num_` of 2
  or 3 the steering divisor is zero and the steering of the code is infinite or
  NaN: the steering and the headings of the model have no counterpart in the
  code then.
* `std::size_t` values are natural numbers; subtraction on them is taken modulo
  `SIZE_MOD = 2 ^ 64`.  The counter of the integration loop is not wrapped, and
  it is compared with the bound exactly (its conversion to `double` is exact
  below `2 ^ 53` passes).
* A `std::shared_ptr<Node3d>` is an address: the position of the node in
  `State.heap`, the log of every node allocated so far (`none` is the null
  pointer).  Nodes are never removed from the log.
* `std::map::insert` keeps an existing entry; `operator[]` creates a null entry
  for a missing key.
* The members of `hybrid_a_star.h`, `Node3d`, `ReedShepp`, `Box2d` and `Obstacle`
  that this file calls are fields of `Conf`.
-/

namespace HybridAStar

/-- The number of values of `std::size_t`. -/
def SIZE_MOD : Nat := 2 ^ 64

/-- The position of the leading binary digit of `n`, by halving `n` at most
`fuel` times. -/
def floor_log2_aux : Nat → Nat → Nat
  | 0, _ => 0
  | fuel + 1, n => if 2 ≤ n then floor_log2_aux fuel (n / 2) + 1 else 0

/-- The position of the leading binary digit of `n` (0 for `n` below 2). -/
def floor_log2 (n : Nat) : Nat := floor_log2_aux n n

/-- The conversion of a `std::size_t` to `double`: the value, itself a natural
number, of the nearest number with 53 significant binary digits, a tie going to
the even significand. -/
def to_double (n : Nat) : Nat :=
  if n < 2 ^ 53 then n
  else
    let sh := floor_log2 n - 52
    let q := n / 2 ^ sh
    let r := n % 2 ^ sh
    if 2 ^ sh < 2 * r ∨ (2 * r = 2 ^ sh ∧ q % 2 = 1) then (q + 1) * 2 ^ sh else q * 2 ^ sh

/-- The search node `Node3d`: pose, traversed poses, parent pointer (`SetPre`) and
gear (`SetDirec`; `none` while `SetDirec` has not been called). -/
structure Node3d (K : Type) where
  x : K
  y : K
  phi : K
  traversed_x : List K
  traversed_y : List K
  traversed_phi : List K
  pre : Option Nat
  direc : Option Bool
deriving DecidableEq

/-- The sampled curve `ReedSheppPath` written by `ShortestRSP`. -/
structure ReedSheppPath (K : Type) where
  x : List K
  y : List K
  phi : List K
deriving DecidableEq

/-- Configuration, vehicle parameters and the collaborators of `HybridAStar`.

Modelled from the spec: `Node3d::GetIndex`, `Node3d::GetCost`,
`Node3d::GetBoundingBox`, `Box2d::HasOverlap`, `Obstacle::PerceptionBoundingBox`,
`ReedShepp::ShortestRSP`, the comparator of `open_pq_` and the type of
`next_node_num_` are declared outside this file and are parameters here.  The
index and the vehicle footprint are functions of the pose of the node (spec 3
and 4.2), the curve generator is a function of the two nodes it is given and
gives the flag it returns with the curve it writes, `top` gives the position in
the queue of the entry that `open_pq_.top()` returns, and `next_node_num_` is a
`std::size_t` like the loop counter it is compared with.  `sqrt2`, `cos`, `sin`,
`tan` and `NormalizeAngle` stand for `std::sqrt(2)`, `std::cos`, `std::sin`,
`std::tan` and `common::math::NormalizeAngle`; `wheel_base` for
`vehicle_param_.wheel_base()`; `fl` is the rounding of the exact result of an
arithmetic operation to the nearest `double`. -/
structure Conf (K Obs Box : Type) where
  next_node_num : Nat
  max_steer : K
  step_size : K
  xy_grid_resolution : K
  wheel_base : K
  sqrt2 : K
  fl : K → K
  cos : K → K
  sin : K → K
  tan : K → K
  NormalizeAngle : K → K
  GetIndex : K → K → K → Nat
  GetCost : Node3d K → K
  GetBoundingBox : K → K → K → Box
  PerceptionBoundingBox : Obs → Box
  HasOverlap : Box → Box → Bool
  ShortestRSP : Node3d K → Node3d K → Bool × ReedSheppPath K
  top : List (Nat × K) → Nat

/-- The undefined behaviours that the planner can run into. -/
inductive UB where
  | out_of_range
  | back_of_empty
  | null_deref
deriving DecidableEq

deriving instance DecidableEq for Except

/-- The maps `open_set_` and `close_set_`: index to node pointer. -/
abbrev NodeMap : Type := List (Nat × Option Nat)

/-- The member `find`: the value stored under `k`, if any. -/
def map_find (m : NodeMap) (k : Nat) : Option (Option Nat) := m.lookup k

/-- The member `insert`: adds the entry unless the key is present. -/
def map_insert (m : NodeMap) (k : Nat) (v : Option Nat) : NodeMap :=
  if (map_find m k).isSome then m else m ++ [(k, v)]

/-- The member `operator[]`: the stored value, a null entry being created for a
missing key. -/
def map_index (m : NodeMap) (k : Nat) : Option Nat × NodeMap :=
  match map_find m k with
  | some v => (v, m)
  | none => (none, m ++ [(k, none)])

/-- The keys of a map. -/
def map_keys (m : NodeMap) : List Nat := m.map Prod.fst

/-- The members `open_set_`, `open_pq_`, `close_set_` and the allocation log. -/
structure State (K : Type) where
  heap : List (Node3d K)
  open_set : NodeMap
  open_pq : List (Nat × K)
  close_set : NodeMap
deriving DecidableEq

section Model

variable {K Obs Box : Type} [LinearOrderedField K] [FloorRing K]

/-- The constructor `Node3d(x, y, phi, conf)`; only the pose of such a node is read. -/
def Node3d.ofPose (x y phi : K) : Node3d K :=
  { x := x, y := y, phi := phi, traversed_x := [], traversed_y := [],
    traversed_phi := [], pre := none, direc := none }

/-- The constructor `Node3d(x, y, phi, xs, ys, phis, conf)`. -/
def Node3d.ofPath (x y phi : K) (xs ys phis : List K) : Node3d K :=
  { x := x, y := y, phi := phi, traversed_x := xs, traversed_y := ys,
    traversed_phi := phis, pre := none, direc := none }

/-- The index of a node, `node->GetIndex()`. -/
def Node3d.GetIndex (c : Conf K Obs Box) (n : Node3d K) : Nat :=
  c.GetIndex n.x n.y n.phi

/-- `HybridAStar::ValidityCheck` (lines 62-70). -/
def ValidityCheck (c : Conf K Obs Box) : List Obs → Node3d K → Bool
  | [], _ => true
  | obstacle_box :: rest, node =>
    if c.HasOverlap (c.GetBoundingBox node.x node.y node.phi)
        (c.PerceptionBoundingBox obstacle_box) then false
    else ValidityCheck c rest node

/-- The loop of `HybridAStar::RSPCheck` over the remaining values of `i`. -/
def RSPCheck_from (c : Conf K Obs Box) (obstacles : List Obs) (p : ReedSheppPath K) :
    List Nat → Except UB Bool
  | [] => .ok true
  | i :: rest =>
    match p.x[i]?, p.y[i]?, p.phi[i]? with
    | some xi, some yi, some phii =>
      if !ValidityCheck c obstacles (Node3d.ofPose xi yi phii) then .ok false
      else RSPCheck_from c obstacles p rest
    | _, _, _ => .error .out_of_range

/-- `HybridAStar::RSPCheck` (lines 51-60): `i` runs over `0 .. x.size() - 1`. -/
def RSPCheck (c : Conf K Obs Box) (obstacles : List Obs) (p : ReedSheppPath K) :
    Except UB Bool :=
  RSPCheck_from c obstacles p (List.range p.x.length)

/-- `HybridAStar::AnalyticExpansion` (lines 38-49): the returned flag and the
curve left in `reeds_shepp_to_end`. -/
def AnalyticExpansion (c : Conf K Obs Box) (obstacles : List Obs)
    (current_node end_node : Node3d K) : Except UB (Bool × ReedSheppPath K) :=
  let r := c.ShortestRSP current_node end_node
  if !r.1 then .ok (false, r.2)
  else
    match RSPCheck c obstacles r.2 with
    | .error e => .error e
    | .ok false => .ok (false, r.2)
    | .ok true => .ok (true, r.2)

/-- `HybridAStar::LoadRSPinCS` (lines 72-80). -/
def LoadRSPinCS (c : Conf K Obs Box) (p : ReedSheppPath K) (current_node : Nat)
    (st : State K) : Except UB (State K) :=
  match p.x.getLast?, p.y.getLast?, p.phi.getLast? with
  | some bx, some by_, some bphi =>
    let end_node : Node3d K :=
      { Node3d.ofPath bx by_ bphi p.x p.y p.phi with pre := some current_node }
    .ok { st with
      heap := st.heap ++ [end_node]
      close_set := map_insert st.close_set (end_node.GetIndex c) (some st.heap.length) }
  | _, _, _ => .error .back_of_empty

/-- The value of `next_node_num_ / 2 - 1` in `std::size_t`. -/
def half_minus_one (c : Conf K Obs Box) : Nat :=
  (c.next_node_num / 2 + SIZE_MOD - 1) % SIZE_MOD

/-- The value of `next_node_index - next_node_num_ / 2` in `std::size_t`. -/
def index_offset (c : Conf K Obs Box) (next_node_index : Nat) : Nat :=
  (next_node_index + SIZE_MOD - c.next_node_num / 2) % SIZE_MOD

/-- Lines 84-96 of `Next_node_generator`: the pair `(steering, traveled_distance)`
chosen for a primitive index.  The divisor and the index are `std::size_t`
values converted to `double` (the offset of line 92 when it is stored in the
`double index`); the product by 2, the quotient, the product by the index and
the sum are rounded.  The products by 1 and -1 and the negation are exact. -/
def primitive (c : Conf K Obs Box) (next_node_index : Nat) : K × K :=
  if next_node_index > half_minus_one c then
    (c.fl (-c.max_steer +
        c.fl (c.fl (c.fl (2 * c.max_steer) / (to_double (half_minus_one c) : K)) *
          (to_double next_node_index : K))),
      1 * c.step_size)
  else
    let index : K := (to_double (index_offset c next_node_index) : K)
    (c.fl (-c.max_steer +
        c.fl (c.fl (c.fl (2 * c.max_steer) / (to_double (half_minus_one c) : K)) * index)),
      -1 * c.step_size)

/-- Line 100: `double arc = std::sqrt(2) * xy_grid_resolution_`. -/
def arc (c : Conf K Obs Box) : K := c.fl (c.sqrt2 * c.xy_grid_resolution)

/-- The number of passes of the loop `for (i = 0; i < arc / step_size_; i++)`
(line 109): the least natural number that is not below the bound, which is the
rounded quotient; for a zero `step_size_` the bound is infinite when the arc is
positive, so that the loop is never left (`none`), and NaN or negative otherwise,
so that the body is never run. -/
def step_count (c : Conf K Obs Box) : Option Nat :=
  if c.step_size = 0 then
    if 0 < arc c then none else some 0
  else some ⌈c.fl (arc c / c.step_size)⌉₊

/-- The body of the integration loop (lines 110-120), run `n` times from the
pose `(last_x, last_y, last_phi)` with the three vectors collected so far. -/
def integrate (c : Conf K Obs Box) (steering traveled_distance : K) :
    Nat → K × K × K → List K × List K × List K → (K × K × K) × (List K × List K × List K)
  | 0, last, inter => (last, inter)
  | n + 1, (last_x, last_y, last_phi), (ix, iy, iphi) =>
    let next_x := last_x + traveled_distance * c.cos last_phi
    let next_y := last_y + traveled_distance * c.sin last_phi
    let next_phi := c.NormalizeAngle
      (last_phi + traveled_distance / c.wheel_base * c.tan steering)
    integrate c steering traveled_distance n (next_x, next_y, next_phi)
      (ix ++ [next_x], iy ++ [next_y], iphi ++ [next_phi])

/-- `HybridAStar::Next_node_generator` (lines 82-128); `current_ptr` is the
address of `current_node`.  `none`: the integration loop is never left. -/
def Next_node_generator (c : Conf K Obs Box) (current_node : Node3d K)
    (current_ptr : Nat) (next_node_index : Nat) : Option (Node3d K) :=
  let steering := (primitive c next_node_index).1
  let traveled_distance := (primitive c next_node_index).2
  match step_count c with
  | none => none
  | some n =>
    let r := integrate c steering traveled_distance n
      (current_node.x, current_node.y, current_node.phi)
      ([current_node.x], [current_node.y], [current_node.phi])
    some { Node3d.ofPath r.1.1 r.1.2.1 r.1.2.2 r.2.1 r.2.2.1 r.2.2.2 with
      pre := some current_ptr
      direc := some (decide (traveled_distance > 0)) }

/-- One pass of the loop over the primitives (lines 175-193) for the index `i`. -/
def for_body (c : Conf K Obs Box) (obstacles : List Obs) (current_node : Node3d K)
    (current_ptr : Nat) (st : State K) (i : Nat) : Option (State K) :=
  match Next_node_generator c current_node current_ptr i with
  | none => none
  | some next_node =>
    let st1 : State K := { st with heap := st.heap ++ [next_node] }
    if !ValidityCheck c obstacles next_node then some st1
    else if (map_find st1.close_set (next_node.GetIndex c)).isSome then some st1
    else if (map_find st1.open_set (next_node.GetIndex c)).isNone then
      some { st1 with
        open_set := map_insert st1.open_set (next_node.GetIndex c) (some st.heap.length)
        open_pq := st1.open_pq ++ [(next_node.GetIndex c, c.GetCost next_node)] }
    else some st1

/-- The loop `for (i = 0; i < next_node_num_; i++)` (line 174) over the indices `is`. -/
def for_loop (c : Conf K Obs Box) (obstacles : List Obs) (current_node : Node3d K)
    (current_ptr : Nat) : List Nat → State K → Option (State K)
  | [], st => some st
  | i :: rest, st =>
    match for_body c obstacles current_node current_ptr st i with
    | none => none
    | some st1 => for_loop c obstacles current_node current_ptr rest st1

/-- The statements `top` and `pop` of lines 162-163: the entry taken out and the
queue that is left; `none` for the empty queue. -/
def pq_pop (c : Conf K Obs Box) (q : List (Nat × K)) :
    Option ((Nat × K) × List (Nat × K)) :=
  match q[c.top q % q.length]? with
  | none => none
  | some e => some (e, q.eraseIdx (c.top q % q.length))

/-- Lines 162-164: the top entry is popped and its index looked up in
`open_set_`; gives `current_node` and the members afterwards, `none` for the
empty queue. -/
def take_current (c : Conf K Obs Box) (st : State K) : Option (Option Nat × State K) :=
  match pq_pop c st.open_pq with
  | none => none
  | some (top, pq) =>
    let current_id := top.1
    let r := map_index st.open_set current_id
    some (r.1, { st with open_pq := pq, open_set := r.2 })

/-- How one pass of the `while` loop of `Plan` ends. -/
inductive Iter (K : Type) where
  | left (st : State K)
  | broke (st : State K)
  | again (st : State K)
  | undefined (e : UB)
  | hangs
deriving DecidableEq

/-- One pass of the `while` loop of `Plan` (lines 160-195), `end_node` being
`*end_node_`: `left` when the queue is empty, `broke` at the `break` of line 172,
`again` when the end of the body is reached. -/
def iteration (c : Conf K Obs Box) (obstacles : List Obs) (end_node : Node3d K)
    (st : State K) : Iter K :=
  match take_current c st with
  | none => .left st
  | some (none, _) => .undefined .null_deref
  | some (some current_ptr, st1) =>
    match st1.heap[current_ptr]? with
    | none => .undefined .null_deref
    | some current_node =>
      match AnalyticExpansion c obstacles current_node end_node with
      | .error e => .undefined e
      | .ok (true, reeds_shepp_to_end) =>
        match LoadRSPinCS c reeds_shepp_to_end current_ptr st1 with
        | .error e => .undefined e
        | .ok st2 => .broke st2
      | .ok (false, _) =>
        match for_loop c obstacles current_node current_ptr
            (List.range c.next_node_num) st1 with
        | none => .hangs
        | some st2 => .again st2

/-- How the `while` loop of `Plan` was left. -/
inductive Exit where
  | shortcut
  | exhausted
deriving DecidableEq

/-- What a call of `Plan` gives: the returned boolean, the way the loop was
left, the number of passes that popped an entry, and the members afterwards;
or the undefined behaviour that it ran into. -/
inductive Outcome (K : Type) where
  | returned (ret : Bool) (exit : Exit) (pops : Nat) (st : State K)
  | undefined (e : UB)
deriving DecidableEq

/-- The `while` loop of `Plan` (line 160) with `fuel` passes allowed, entered
after `pops` pops; `none`: the loop is not left within `fuel` passes.  The
boolean is the one of line 197. -/
def Plan_loop (c : Conf K Obs Box) (obstacles : List Obs) (end_node : Node3d K) :
    Nat → Nat → State K → Option (Outcome K)
  | 0, _, _ => none
  | fuel + 1, pops, st =>
    match iteration c obstacles end_node st with
    | .left st1 => some (.returned true .exhausted pops st1)
    | .broke st1 => some (.returned true .shortcut (pops + 1) st1)
    | .again st1 => Plan_loop c obstacles end_node fuel (pops + 1) st1
    | .undefined e => some (.undefined e)
    | .hangs => none

/-- Lines 144-158 of `Plan`: the start and end nodes are allocated and the start
node is put in the open set and in the queue. -/
def seed (c : Conf K Obs Box) (sx sy sphi ex ey ephi : K) (st : State K) : State K :=
  let start_node := Node3d.ofPath sx sy sphi [sx] [sy] [sphi]
  let end_node := Node3d.ofPath ex ey ephi [ex] [ey] [ephi]
  { heap := st.heap ++ [start_node, end_node]
    open_set := map_insert st.open_set (start_node.GetIndex c) (some st.heap.length)
    open_pq := st.open_pq ++ [(start_node.GetIndex c, c.GetCost start_node)]
    close_set := st.close_set }

/-- `HybridAStar::Plan` (lines 141-198), called with the members in state `st`.
The call `GetResult()` of line 196 is not modelled. -/
def Plan (c : Conf K Obs Box) (fuel : Nat) (sx sy sphi ex ey ephi : K)
    (obstacles : List Obs) (st : State K) : Option (Outcome K) :=
  Plan_loop c obstacles (Node3d.ofPath ex ey ephi [ex] [ey] [ephi]) fuel 0
    (seed c sx sy sphi ex ey ephi st)

/-- The members of a freshly constructed planner. -/
def State.empty : State K :=
  { heap := [], open_set := [], open_pq := [], close_set := [] }

/-- The members when the condition of the `while` loop is evaluated after `k`
complete passes of a loop entered in state `st`; `none` when the loop was left
before. -/
def loop_head (c : Conf K Obs Box) (obstacles : List Obs) (end_node : Node3d K) :
    Nat → State K → Option (State K)
  | 0, st => some st
  | k + 1, st =>
    match iteration c obstacles end_node st with
    | .again st1 => loop_head c obstacles end_node k st1
    | _ => none

/-- The states that the `while` loop entered in state `s0` passes through: at the
loop condition, after the pop and lookup, after each primitive of an expansion,
and (flagged `true`) after `LoadRSPinCS`. -/
inductive Point (c : Conf K Obs Box) (obstacles : List Obs) (end_node : Node3d K)
    (s0 : State K) : Bool → State K → Prop where
  | head (k : Nat) (st : State K) :
      loop_head c obstacles end_node k s0 = some st → Point c obstacles end_node s0 false st
  | popped (k : Nat) (st st1 : State K) (p : Option Nat) :
      loop_head c obstacles end_node k s0 = some st →
      take_current c st = some (p, st1) → Point c obstacles end_node s0 false st1
  | child (k : Nat) (st st1 t : State K) (p j : Nat) (node : Node3d K)
      (rsp : ReedSheppPath K) :
      loop_head c obstacles end_node k s0 = some st →
      take_current c st = some (some p, st1) → st1.heap[p]? = some node →
      AnalyticExpansion c obstacles node end_node = .ok (false, rsp) →
      j ≤ c.next_node_num →
      for_loop c obstacles node p (List.range j) st1 = some t →
      Point c obstacles end_node s0 false t
  | loaded (k : Nat) (st st1 t : State K) (p : Nat) (node : Node3d K)
      (rsp : ReedSheppPath K) :
      loop_head c obstacles end_node k s0 = some st →
      take_current c st = some (some p, st1) → st1.heap[p]? = some node →
      AnalyticExpansion c obstacles node end_node = .ok (true, rsp) →
      LoadRSPinCS c rsp p st1 = .ok t → Point c obstacles end_node s0 true t

/-- The state `st1` keeps what `st` holds: every entry of the open set and of the
closed set of `st` is an entry of `st1`, and every node of `st` is at the same
address in `st1`. -/
def State.Keeps (st st1 : State K) : Prop :=
  (∀ k v, map_find st.open_set k = some v → map_find st1.open_set k = some v) ∧
  (∀ k v, map_find st.close_set k = some v → map_find st1.close_set k = some v) ∧
  ∃ rest, st1.heap = st.heap ++ rest

/-- A curve with at least one sampled pose: the three vectors are not empty and
have the same length. -/
def ReedSheppPath.WellFormed (p : ReedSheppPath K) : Prop :=
  p.x ≠ [] ∧ p.y.length = p.x.length ∧ p.phi.length = p.x.length

/-- Lines 110-114: the pose that one pass of the integration loop computes from
the pose `last`. -/
def advance (c : Conf K Obs Box) (steering traveled_distance : K) (last : K × K × K) :
    K × K × K :=
  (last.1 + traveled_distance * c.cos last.2.2,
    last.2.1 + traveled_distance * c.sin last.2.2,
    c.NormalizeAngle (last.2.2 + traveled_distance / c.wheel_base * c.tan steering))

/-- Following the parent pointers (`SetPre`) from the address `a` leads to the
node at address `s`, which has no parent, each parent having a smaller address
than its child. -/
inductive Rooted (heap : List (Node3d K)) (s : Nat) : Nat → Prop where
  | root (node : Node3d K) : heap[s]? = some node → node.pre = none → Rooted heap s s
  | step (a q : Nat) (node : Node3d K) : heap[a]? = some node → node.pre = some q →
      q < a → Rooted heap s q → Rooted heap s a

/-- Every index in the queue is a key of the open set that is mapped to a
pointer to an allocated node. -/
def State.Linked (st : State K) : Prop :=
  ∀ e ∈ st.open_pq, ∃ p, map_find st.open_set e.1 = some (some p) ∧ p < st.heap.length

/-- Every pointer stored in the open set or in the closed set leads, along the
parent pointers, to the node at address `s`. -/
def State.Anchored (s : Nat) (st : State K) : Prop :=
  (∀ k p, map_find st.open_set k = some (some p) → Rooted st.heap s p) ∧
  (∀ k p, map_find st.close_set k = some (some p) → Rooted st.heap s p)

end Model

/-! ## A concrete planner: a lane along the x axis -/

/-- Axis-aligned rectangles `(x_min, x_max, y_min, y_max)`. -/
abbrev Rect : Type := ℚ × ℚ × ℚ × ℚ

/-- Two rectangles overlap when their projections on both axes meet. -/
def Rect.overlap (a b : Rect) : Bool :=
  decide (a.1 ≤ b.2.1 ∧ b.1 ≤ a.2.1 ∧ a.2.2.1 ≤ b.2.2.2 ∧ b.2.2.1 ≤ a.2.2.2)

/-- The obstacle that covers the square of side 1/2 centred at `(x, 0)`. -/
def block (x : ℚ) : Rect := (x - 1/4, x + 1/4, -1/4, 1/4)

/-- The rounding of a rational number to the nearest `double`: 53 significant
binary digits from the leading digit, which has the exponent `e`, and no digit
below `2 ^ (-1074)`; a tie goes to the even significand.  The overflow to
infinity above the largest `double` is not part of it. -/
def round_double (x : ℚ) : ℚ :=
  if x = 0 then 0
  else
    let a := |x|
    let e0 : ℤ := (floor_log2 a.num.natAbs : ℤ) - (floor_log2 a.den : ℤ)
    let e1 : ℤ := if a < (2 : ℚ) ^ e0 then e0 - 1 else e0
    let e : ℤ := max e1 (-1022)
    let scaled : ℚ := a * (2 : ℚ) ^ (52 - e)
    let m : ℕ := ⌊scaled⌋₊
    let r : ℚ := scaled - m
    let m1 : ℕ := if 1 / 2 < r ∨ (r = 1 / 2 ∧ m % 2 = 1) then m + 1 else m
    (if x < 0 then -1 else 1) * (m1 : ℚ) * (2 : ℚ) ^ (e - 52)

/-- A planner over the rationals with four primitives, unit step and unit grid,
a square footprint of side 1/4 and a queue that serves the oldest entry.
`sqrt2` is the `double` nearest to the square root of 2.  The curve generator
always succeeds, with the three samples start, midpoint and end.  The
trigonometric functions take their exact values at 0, the only argument they
are given in the runs below (where `max_steer` is 0 and every heading is 0). -/
def lane (max_steer : ℚ) : Conf ℚ Rect Rect where
  next_node_num := 4
  max_steer := max_steer
  step_size := 1
  xy_grid_resolution := 1
  wheel_base := 1
  sqrt2 := 6369051672525773 / 4503599627370496
  fl := round_double
  cos := fun t => 1 - t ^ 2 / 2
  sin := fun t => t
  tan := fun t => t
  NormalizeAngle := fun t => t
  GetIndex := fun x y phi =>
    (⌊x⌋ + 100).toNat * 40000 + (⌊y⌋ + 100).toNat * 200 + (⌊phi⌋ + 100).toNat
  GetCost := fun _ => 0
  GetBoundingBox := fun x y _ => (x - 1/8, x + 1/8, y - 1/8, y + 1/8)
  PerceptionBoundingBox := fun o => o
  HasOverlap := Rect.overlap
  ShortestRSP := fun a b =>
    (true, ⟨[a.x, (a.x + b.x) / 2, b.x], [a.y, (a.y + b.y) / 2, b.y],
      [a.phi, (a.phi + b.phi) / 2, b.phi]⟩)
  top := fun _ => 0

/-- The planner `lane 0` with the step 0.282842712474619, as a `double`. -/
def fine : Conf ℚ Rect Rect :=
  { lane 0 with step_size := 2547620669010309 / 9007199254740992 }

/-- The planner `lane 1` with two primitives. -/
def pair : Conf ℚ Rect Rect :=
  { lane 1 with next_node_num := 2 }

/-- The planner `lane 0` with a curve generator that reports success and writes
no pose. -/
def void : Conf ℚ Rect Rect :=
  { lane 0 with ShortestRSP := fun _ _ => (true, ⟨[], [], []⟩) }

/-- The start node of the runs from `(0, 0, 0)`. -/
def lane_start : Node3d ℚ := Node3d.ofPath 0 0 0 [0] [0] [0]

/-- The end node of the runs to `(6, 0, 0)`. -/
def lane_goal : Node3d ℚ := Node3d.ofPath 6 0 0 [6] [0] [0]

/-- The reverse child of the start node. -/
def lane_back : Node3d ℚ :=
  { Node3d.ofPath (-2) 0 0 [0, -1, -2] [0, 0, 0] [0, 0, 0] with
    pre := some 0, direc := some false }

/-- The forward child of the start node. -/
def lane_ahead : Node3d ℚ :=
  { Node3d.ofPath 2 0 0 [0, 1, 2] [0, 0, 0] [0, 0, 0] with
    pre := some 0, direc := some true }

/-- The node that `LoadRSPinCS` builds from the forward child in the run to
`(6, 0, 0)`. -/
def lane_terminal : Node3d ℚ :=
  { Node3d.ofPath 6 0 0 [2, 4, 6] [0, 0, 0] [0, 0, 0] with pre := some 4 }

/-- The members after the first call of `Plan` from `(0, 0, 0)` to `(6, 0, 0)` with
obstacles at `x = 3` and `x = -2`. -/
def lane_first : State ℚ :=
  { heap := [lane_start, lane_goal, lane_back, lane_back, lane_ahead, lane_ahead,
      lane_terminal]
    open_set := [(4020100, some 0), (4100100, some 4)]
    open_pq := []
    close_set := [(4260100, some 6)] }

/-- The members after the second call of `Plan` with the same arguments. -/
def lane_second : State ℚ :=
  { lane_first with
    heap := lane_first.heap ++
      [lane_start, lane_goal, lane_back, lane_back, lane_ahead, lane_ahead] }

/-- The members after the first pass of the loop from `(0, 0, 0)` to `(6, 0, 0)`
with obstacles at `x = 3` and `x = 1`. -/
def lane_expanded : State ℚ :=
  { heap := [lane_start, lane_goal, lane_back, lane_back, lane_ahead, lane_ahead]
    open_set := [(4020100, some 0), (3940100, some 2), (4100100, some 4)]
    open_pq := [(3940100, 0), (4100100, 0)]
    close_set := [] }

/-- The end node of the run to `(1/2, 0, 0)`. -/
def near_goal : Node3d ℚ := Node3d.ofPath (1/2) 0 0 [1/2] [0] [0]

/-- The node that `LoadRSPinCS` builds in the run to `(1/2, 0, 0)`. -/
def near_terminal : Node3d ℚ :=
  { Node3d.ofPath (1/2) 0 0 [0, 1/4, 1/2] [0, 0, 0] [0, 0, 0] with pre := some 0 }

/-- The members after the pop of the run to `(1/2, 0, 0)`. -/
def near_popped : State ℚ :=
  { heap := [lane_start, near_goal], open_set := [(4020100, some 0)], open_pq := [],
    close_set := [] }

/-- The members at the end of the run to `(1/2, 0, 0)`. -/
def near_final : State ℚ :=
  { heap := [lane_start, near_goal, near_terminal], open_set := [(4020100, some 0)],
    open_pq := [], close_set := [(4020100, some 2)] }

/-- The planner `lane 0` with a cost of 2 for a reverse child, 1 for a forward child
and 0 for a node without gear, and a queue that serves the first entry of
least cost. -/
def toll : Conf ℚ Rect Rect :=
  { lane 0 with
    GetCost := fun n =>
      if n.direc = some false then 2 else if n.direc = some true then 1 else 0
    top := fun q => q.findIdx (fun e => q.all (fun f => decide (e.2 ≤ f.2))) }

/-- The child that a primitive of `lane 0` makes of the node at address `pre` with
pose `(a, 0, 0)`: two steps ahead, or two steps back. -/
def hop (a : ℚ) (pre : Nat) (forward : Bool) : Node3d ℚ :=
  if forward then
    { Node3d.ofPath (a + 2) 0 0 [a, a + 1, a + 2] [0, 0, 0] [0, 0, 0] with
      pre := some pre, direc := some true }
  else
    { Node3d.ofPath (a - 2) 0 0 [a, a - 1, a - 2] [0, 0, 0] [0, 0, 0] with
      pre := some pre, direc := some false }

/-- The members of `toll` after a first call of `Plan` from `(0, 0, 0)` to
`(6, 0, 0)` with an obstacle at `x = 3`: the entry of the reverse child is left in
the queue. -/
def toll_left : State ℚ :=
  { heap := [lane_start, lane_goal, lane_back, lane_back, lane_ahead, lane_ahead,
      lane_terminal]
    open_set := [(4020100, some 0), (3940100, some 2), (4100100, some 4)]
    open_pq := [(3940100, 2)]
    close_set := [(4260100, some 6)] }

/-- The members of `toll` after a second call of `Plan`, from `(0, 0, 0)` to
`(1/2, 0, 0)`. -/
def toll_again : State ℚ :=
  { heap := toll_left.heap ++ [lane_start, near_goal, near_terminal]
    open_set := [(4020100, some 0), (3940100, some 2), (4100100, some 4)]
    open_pq := [(3940100, 2)]
    close_set := [(4260100, some 6), (4020100, some 9)] }

/-- The members of `toll` after four passes of the loop from `(0, 0, 0)` to
`(6, 0, 0)` with an obstacle on the goal. -/
def toll_head : State ℚ :=
  { heap := [lane_start, lane_goal, hop 0 0 false, hop 0 0 false, hop 0 0 true, hop 0 0 true,
      hop 2 4 false, hop 2 4 false, hop 2 4 true, hop 2 4 true,
      hop 4 8 false, hop 4 8 false, hop 4 8 true, hop 4 8 true,
      hop (-2) 2 false, hop (-2) 2 false, hop (-2) 2 true, hop (-2) 2 true]
    open_set := [(4020100, some 0), (3940100, some 2), (4100100, some 4), (4180100, some 8),
      (3860100, some 14)]
    open_pq := [(3860100, 2)]
    close_set := [] }

/-- The members of `toll` in the fifth pass, after the two reverse children of the
node at `x = -4`. -/
def toll_before : State ℚ :=
  { heap := toll_head.heap ++ [hop (-4) 14 false, hop (-4) 14 false]
    open_set := toll_head.open_set ++ [(3780100, some 18)]
    open_pq := [(3780100, 2)]
    close_set := [] }

/-! ## Collision checking and the analytic shortcut -/

section Validity

variable {K Obs Box : Type}

/-- C2: `ValidityCheck` returns false exactly when the vehicle bounding box at the
pose of the node overlaps the perception bounding box of at least one obstacle of
the list, and it returns true for the empty obstacle list. -/
theorem ValidityCheck_false_iff_overlap (c : Conf K Obs Box) (obstacles : List Obs)
    (node : Node3d K) :
    (ValidityCheck c obstacles node = false ↔
      ∃ o ∈ obstacles, c.HasOverlap (c.GetBoundingBox node.x node.y node.phi)
        (c.PerceptionBoundingBox o) = true) ∧
    ValidityCheck c ([] : List Obs) node = true := by
  refine ⟨?_, rfl⟩
  induction obstacles with
  | nil => simp [ValidityCheck]
  | cons o rest ih =>
    by_cases h : c.HasOverlap (c.GetBoundingBox node.x node.y node.phi)
        (c.PerceptionBoundingBox o) = true
    · simp [ValidityCheck, h]
    · simp [ValidityCheck, h, ih]

/-- The value of `ValidityCheck` as a fold: no obstacle of the list overlaps. -/
theorem ValidityCheck_eq_all (c : Conf K Obs Box) (obstacles : List Obs) (node : Node3d K) :
    ValidityCheck c obstacles node =
      obstacles.all (fun o => !c.HasOverlap (c.GetBoundingBox node.x node.y node.phi)
        (c.PerceptionBoundingBox o)) := by
  induction obstacles with
  | nil => rfl
  | cons o rest ih =>
    by_cases h : c.HasOverlap (c.GetBoundingBox node.x node.y node.phi)
        (c.PerceptionBoundingBox o) = true
    · simp [ValidityCheck, h]
    · simp [ValidityCheck, h, ih]

/-- The loop of `RSPCheck` returns true exactly when every index it visits is in
range of the three vectors and the pose sampled there passes `ValidityCheck`. -/
theorem RSPCheck_from_true_iff (c : Conf K Obs Box) (obstacles : List Obs)
    (p : ReedSheppPath K) (l : List Nat) :
    RSPCheck_from c obstacles p l = .ok true ↔
      ∀ i ∈ l, ∃ xi yi phii, p.x[i]? = some xi ∧ p.y[i]? = some yi ∧
        p.phi[i]? = some phii ∧
        ValidityCheck c obstacles (Node3d.ofPose xi yi phii) = true := by
  induction l with
  | nil => simp [RSPCheck_from]
  | cons i rest ih =>
    rw [RSPCheck_from]
    rcases hx : p.x[i]? with _ | xi
    · simp [hx]
    rcases hy : p.y[i]? with _ | yi
    · simp [hy]
    rcases hphi : p.phi[i]? with _ | phii
    · simp [hphi]
    by_cases hv : ValidityCheck c obstacles (Node3d.ofPose xi yi phii) = true
    · simp [hx, hy, hphi, hv, ih]
    · simp [hx, hy, hphi, hv]

theorem RSPCheck_true_iff (c : Conf K Obs Box) (obstacles : List Obs) (p : ReedSheppPath K) :
    RSPCheck c obstacles p = .ok true ↔
      ∀ i, i < p.x.length → ∃ xi yi phii, p.x[i]? = some xi ∧ p.y[i]? = some yi ∧
        p.phi[i]? = some phii ∧
        ValidityCheck c obstacles (Node3d.ofPose xi yi phii) = true := by
  rw [RSPCheck, RSPCheck_from_true_iff]
  simp only [List.mem_range]

theorem AnalyticExpansion_eq_ok_true (c : Conf K Obs Box) (obstacles : List Obs)
    (current_node end_node : Node3d K) (p : ReedSheppPath K) :
    AnalyticExpansion c obstacles current_node end_node = .ok (true, p) ↔
      (c.ShortestRSP current_node end_node).1 = true ∧
      (c.ShortestRSP current_node end_node).2 = p ∧
      RSPCheck c obstacles p = .ok true := by
  unfold AnalyticExpansion
  rcases hs : c.ShortestRSP current_node end_node with ⟨ok, q⟩
  cases ok
  · simp
  · simp only [Bool.not_true, Bool.false_eq_true, if_false, true_and]
    rcases hr : RSPCheck c obstacles q with e | b
    · constructor
      · intro h; cases h
      · rintro ⟨rfl, h⟩; rw [hr] at h; cases h
    · cases b
      · constructor
        · intro h; cases h
        · rintro ⟨rfl, h⟩; rw [hr] at h; cases h
      · constructor
        · intro h
          cases h
          exact ⟨rfl, hr⟩
        · rintro ⟨rfl, _⟩; rfl

/-- C3: `AnalyticExpansion` returns true (leaving the curve `p`) exactly when
`ShortestRSP` reports success with that curve and `RSPCheck` holds for it;
`RSPCheck` holds exactly when, for every `i` below `x.size()`, the pose
`(x[i], y[i], phi[i])` exists and the node built from it passes `ValidityCheck`;
so after a successful `AnalyticExpansion` every sampled pose of the curve
passes `ValidityCheck` on its own. -/
theorem AnalyticExpansion_true_iff (c : Conf K Obs Box) (obstacles : List Obs)
    (current_node end_node : Node3d K) (p : ReedSheppPath K) :
    (AnalyticExpansion c obstacles current_node end_node = .ok (true, p) ↔
      (c.ShortestRSP current_node end_node).1 = true ∧
      (c.ShortestRSP current_node end_node).2 = p ∧
      RSPCheck c obstacles p = .ok true) ∧
    (RSPCheck c obstacles p = .ok true ↔
      ∀ i, i < p.x.length → ∃ xi yi phii, p.x[i]? = some xi ∧ p.y[i]? = some yi ∧
        p.phi[i]? = some phii ∧
        ValidityCheck c obstacles (Node3d.ofPose xi yi phii) = true) ∧
    (AnalyticExpansion c obstacles current_node end_node = .ok (true, p) →
      ∀ i, i < p.x.length → ∃ xi yi phii, p.x[i]? = some xi ∧ p.y[i]? = some yi ∧
        p.phi[i]? = some phii ∧
        ValidityCheck c obstacles (Node3d.ofPose xi yi phii) = true) :=
  ⟨AnalyticExpansion_eq_ok_true c obstacles current_node end_node p,
    RSPCheck_true_iff c obstacles p,
    fun h => (RSPCheck_true_iff c obstacles p).1
      ((AnalyticExpansion_eq_ok_true c obstacles current_node end_node p).1 h).2.2⟩

theorem RSPCheck_from_ok (c : Conf K Obs Box) (obstacles : List Obs) (p : ReedSheppPath K)
    (hw : p.WellFormed) (l : List Nat) (hl : ∀ i ∈ l, i < p.x.length) :
    ∃ b, RSPCheck_from c obstacles p l = .ok b := by
  induction l with
  | nil => exact ⟨true, rfl⟩
  | cons i rest ih =>
    have hi : i < p.x.length := hl i (List.mem_cons_self _ _)
    obtain ⟨xi, hx⟩ : ∃ xi, p.x[i]? = some xi := ⟨_, List.getElem?_eq_getElem hi⟩
    obtain ⟨yi, hy⟩ : ∃ yi, p.y[i]? = some yi :=
      ⟨_, List.getElem?_eq_getElem (hw.2.1 ▸ hi)⟩
    obtain ⟨phii, hphi⟩ : ∃ phii, p.phi[i]? = some phii :=
      ⟨_, List.getElem?_eq_getElem (hw.2.2 ▸ hi)⟩
    rw [RSPCheck_from, hx, hy, hphi]
    simp only
    split
    · exact ⟨false, rfl⟩
    · exact ih (fun j hj => hl j (List.mem_cons_of_mem _ hj))

theorem RSPCheck_ok (c : Conf K Obs Box) (obstacles : List Obs) (p : ReedSheppPath K)
    (hw : p.WellFormed) : ∃ b, RSPCheck c obstacles p = .ok b :=
  RSPCheck_from_ok c obstacles p hw _ (fun _ hi => List.mem_range.1 hi)

theorem LoadRSPinCS_ok (c : Conf K Obs Box) (p : ReedSheppPath K) (hw : p.WellFormed)
    (current_ptr : Nat) (st : State K) : ∃ st1, LoadRSPinCS c p current_ptr st = .ok st1 := by
  obtain ⟨hx, hy, hphi⟩ := hw
  have hy1 : p.y ≠ [] := by
    intro h0; rw [h0] at hy; exact hx (List.length_eq_zero.1 hy.symm)
  have hphi1 : p.phi ≠ [] := by
    intro h0; rw [h0] at hphi; exact hx (List.length_eq_zero.1 hphi.symm)
  unfold LoadRSPinCS
  rw [List.getLast?_eq_getLast _ hx, List.getLast?_eq_getLast _ hy1,
    List.getLast?_eq_getLast _ hphi1]
  exact ⟨_, rfl⟩

/-- C20: when `AnalyticExpansion` returns true every index that `RSPCheck` reads is
in range of `x`, `y` and `phi`, and the calls of `back()` in `LoadRSPinCS` are
in range exactly when the curve has a sampled pose; for a curve that is not
empty and has `x`, `y` and `phi` of equal length neither function leaves the
range; and `RSPCheck` returns true for a curve with no sampled pose. -/
theorem curve_index_safety (c : Conf K Obs Box) (obstacles : List Obs)
    (current_node end_node : Node3d K) (p : ReedSheppPath K) (current_ptr : Nat)
    (st : State K) :
    (AnalyticExpansion c obstacles current_node end_node = .ok (true, p) →
      (∀ i, i < p.x.length → i < p.y.length ∧ i < p.phi.length) ∧
      ((∃ st1, LoadRSPinCS c p current_ptr st = .ok st1) ↔ p.x ≠ [])) ∧
    (p.WellFormed →
      (∃ b, RSPCheck c obstacles p = .ok b) ∧
      ∃ st1, LoadRSPinCS c p current_ptr st = .ok st1) ∧
    RSPCheck c obstacles (⟨[], [], []⟩ : ReedSheppPath K) = .ok true := by
  refine ⟨?_, fun hw => ⟨RSPCheck_ok c obstacles p hw, LoadRSPinCS_ok c p hw current_ptr st⟩,
    rfl⟩
  intro hae
  have hcheck := ((AnalyticExpansion_eq_ok_true c obstacles _ _ p).1 hae).2.2
  have hrange : ∀ i, i < p.x.length → i < p.y.length ∧ i < p.phi.length := by
    intro i hi
    obtain ⟨xi, yi, phii, _, hy, hphi, _⟩ := (RSPCheck_true_iff c obstacles p).1 hcheck i hi
    exact ⟨(List.getElem?_eq_some_iff.1 hy).1, (List.getElem?_eq_some_iff.1 hphi).1⟩
  refine ⟨hrange, ?_, ?_⟩
  · rintro ⟨st1, h1⟩ hx
    unfold LoadRSPinCS at h1
    rw [hx] at h1
    simp at h1
  · intro hx
    have hpos : 0 < p.x.length := List.length_pos.2 hx
    obtain ⟨hy, hphi⟩ := hrange 0 hpos
    have hy1 : p.y ≠ [] := List.length_pos.1 hy
    have hphi1 : p.phi ≠ [] := List.length_pos.1 hphi
    unfold LoadRSPinCS
    rw [List.getLast?_eq_getLast _ hx, List.getLast?_eq_getLast _ hy1,
      List.getLast?_eq_getLast _ hphi1]
    exact ⟨_, rfl⟩

end Validity

/-! ## Maps, queue and bookkeeping -/

section Bookkeeping

variable {K Obs Box : Type}

theorem map_insert_absent (m : NodeMap) (k : Nat) (v : Option Nat)
    (h : map_find m k = none) : map_insert m k v = m ++ [(k, v)] := by
  simp [map_insert, h]

theorem map_find_append_some (m l : NodeMap) (k : Nat) (v : Option Nat)
    (h : map_find m k = some v) : map_find (m ++ l) k = some v := by
  unfold map_find at *
  rw [List.lookup_append, h]
  rfl

theorem map_insert_keeps (m : NodeMap) (k k1 : Nat) (v v1 : Option Nat)
    (h : map_find m k1 = some v1) : map_find (map_insert m k v) k1 = some v1 := by
  unfold map_insert
  split
  · exact h
  · exact map_find_append_some m _ k1 v1 h

theorem map_find_append_new (m : NodeMap) (k : Nat) (v : Option Nat)
    (h : map_find m k = none) : map_find (m ++ [(k, v)]) k = some v := by
  unfold map_find at *
  rw [List.lookup_append, h]
  simp [List.lookup_cons]

theorem pq_pop_cases (c : Conf K Obs Box) (q q1 : List (Nat × K)) (e : Nat × K)
    (h : pq_pop c q = some (e, q1)) :
    e ∈ q ∧ q1.length + 1 = q.length ∧ ∀ x ∈ q1, x ∈ q := by
  unfold pq_pop at h
  rcases hq : q[c.top q % q.length]? with _ | e1
  · rw [hq] at h; cases h
  · rw [hq] at h
    simp only [Option.some.injEq, Prod.mk.injEq] at h
    obtain ⟨rfl, rfl⟩ := h
    have hlt : c.top q % q.length < q.length := (List.getElem?_eq_some_iff.1 hq).1
    refine ⟨List.getElem?_mem hq, ?_, ?_⟩
    · rw [List.length_eraseIdx]
      simp only [hlt, if_true]
      omega
    · intro x hx
      exact (List.eraseIdx_sublist q _).subset hx

theorem perm_cons_eraseIdx {α : Type} : ∀ (q : List α) (i : Nat) (e : α),
    q[i]? = some e → q.Perm (e :: q.eraseIdx i)
  | [], _, _, h => by simp at h
  | a :: q, 0, e, h => by
    simp only [List.getElem?_cons_zero, Option.some.injEq] at h
    subst h
    exact List.Perm.refl _
  | a :: q, i + 1, e, h => by
    simp only [List.getElem?_cons_succ] at h
    rw [List.eraseIdx_cons_succ]
    exact ((perm_cons_eraseIdx q i e h).cons a).trans (List.Perm.swap e a _)

theorem pq_pop_perm (c : Conf K Obs Box) (q q1 : List (Nat × K)) (e : Nat × K)
    (h : pq_pop c q = some (e, q1)) : q.Perm (e :: q1) := by
  unfold pq_pop at h
  rcases hq : q[c.top q % q.length]? with _ | e1
  · rw [hq] at h; cases h
  · rw [hq] at h
    simp only [Option.some.injEq, Prod.mk.injEq] at h
    obtain ⟨rfl, rfl⟩ := h
    exact perm_cons_eraseIdx q _ _ hq

/-- A pop that finds the index in the open set takes one entry out of the queue
and leaves the open set as it is. -/
theorem take_current_queue (c : Conf K Obs Box) (st st1 : State K) (p : Nat)
    (h : take_current c st = some (some p, st1)) :
    ∃ e, st.open_pq.Perm (e :: st1.open_pq) ∧ st1.open_set = st.open_set := by
  unfold take_current at h
  rcases hq : pq_pop c st.open_pq with _ | ⟨e, q1⟩
  · rw [hq] at h; cases h
  · rw [hq] at h
    simp only [Option.some.injEq, Prod.mk.injEq] at h
    obtain ⟨hp, hst⟩ := h
    subst hst
    refine ⟨e, pq_pop_perm c _ _ _ hq, ?_⟩
    unfold map_index at hp ⊢
    rcases hf : map_find st.open_set e.1 with _ | v
    · rw [hf] at hp; cases hp
    · simp

theorem take_current_cases (c : Conf K Obs Box) (st st1 : State K) (p : Option Nat)
    (h : take_current c st = some (p, st1)) :
    ∃ e, e ∈ st.open_pq ∧ st1.open_pq.length + 1 = st.open_pq.length ∧
      (∀ x ∈ st1.open_pq, x ∈ st.open_pq) ∧
      st1.heap = st.heap ∧ st1.close_set = st.close_set ∧
      ((map_find st.open_set e.1 = some p ∧ st1.open_set = st.open_set) ∨
        (map_find st.open_set e.1 = none ∧ p = none ∧
          st1.open_set = st.open_set ++ [(e.1, none)])) := by
  unfold take_current at h
  rcases hq : pq_pop c st.open_pq with _ | ⟨e, q1⟩
  · rw [hq] at h; cases h
  · rw [hq] at h
    obtain ⟨hmem, hlen, hsub⟩ := pq_pop_cases c _ _ _ hq
    simp only [Option.some.injEq, Prod.mk.injEq] at h
    obtain ⟨hp, hst⟩ := h
    subst hst
    refine ⟨e, hmem, hlen, hsub, rfl, rfl, ?_⟩
    unfold map_index at hp ⊢
    rcases hf : map_find st.open_set e.1 with _ | v
    · right; rw [hf] at hp; exact ⟨rfl, hp.symm, by simp⟩
    · left; rw [hf] at hp; simp only at hp; exact ⟨by rw [hp], by simp⟩

theorem take_current_seed (c : Conf K Obs Box) (sx sy sphi ex ey ephi : K)
    (heap : List (Node3d K)) :
    take_current c (seed c sx sy sphi ex ey ephi
      { heap := heap, open_set := [], open_pq := [], close_set := [] }) =
      some (some heap.length,
        { heap := heap ++ [Node3d.ofPath sx sy sphi [sx] [sy] [sphi],
            Node3d.ofPath ex ey ephi [ex] [ey] [ephi]]
          open_set := [(c.GetIndex sx sy sphi, some heap.length)]
          open_pq := []
          close_set := [] }) := by
  simp [take_current, seed, pq_pop, map_index, map_insert, map_find, Nat.mod_one,
    Node3d.GetIndex, Node3d.ofPath, List.lookup_cons]

theorem State.Keeps.refl (st : State K) : st.Keeps st :=
  ⟨fun _ _ h => h, fun _ _ h => h, [], by simp⟩

theorem State.Keeps.trans {a b d : State K} (h1 : a.Keeps b) (h2 : b.Keeps d) : a.Keeps d := by
  obtain ⟨o1, c1, r1, e1⟩ := h1
  obtain ⟨o2, c2, r2, e2⟩ := h2
  refine ⟨fun k v h => o2 k v (o1 k v h), fun k v h => c2 k v (c1 k v h), r1 ++ r2, ?_⟩
  rw [e2, e1, List.append_assoc]

theorem take_current_keeps (c : Conf K Obs Box) (st st1 : State K) (p : Option Nat)
    (h : take_current c st = some (p, st1)) : st.Keeps st1 := by
  obtain ⟨e, _, _, _, hheap, hcl, hopen⟩ := take_current_cases c st st1 p h
  refine ⟨?_, fun k v h => by rw [hcl]; exact h, [], by simp [hheap]⟩
  rcases hopen with ⟨_, ho⟩ | ⟨_, _, ho⟩
  · intro k v h; rw [ho]; exact h
  · intro k v h; rw [ho]; exact map_find_append_some _ _ k v h

theorem LoadRSPinCS_keeps (c : Conf K Obs Box) (rsp : ReedSheppPath K) (p : Nat)
    (st st1 : State K) (h : LoadRSPinCS c rsp p st = .ok st1) : st.Keeps st1 := by
  unfold LoadRSPinCS at h
  split at h
  · cases h
    exact ⟨fun _ _ h => h, fun k v h => map_insert_keeps _ _ k _ v h, [_], rfl⟩
  · cases h

theorem seed_keeps (c : Conf K Obs Box) (sx sy sphi ex ey ephi : K) (st : State K) :
    st.Keeps (seed c sx sy sphi ex ey ephi st) :=
  ⟨fun k v h => map_insert_keeps _ _ k _ v h, fun _ _ h => h, [_, _], rfl⟩

theorem take_current_linked (c : Conf K Obs Box) (st st1 : State K) (p : Option Nat)
    (ht : st.Linked) (h : take_current c st = some (p, st1)) :
    st1.Linked ∧ ∃ q node, p = some q ∧ st1.open_set = st.open_set ∧
      st1.heap[q]? = some node := by
  obtain ⟨e, he, _, hsub, hheap, _, hopen⟩ := take_current_cases c st st1 p h
  obtain ⟨q, hq, hqlt⟩ := ht e he
  have hfound : p = some q ∧ st1.open_set = st.open_set := by
    rcases hopen with ⟨h1, h2⟩ | ⟨h1, _, _⟩
    · rw [hq] at h1
      exact ⟨(Option.some.inj h1).symm, h2⟩
    · rw [hq] at h1; cases h1
  refine ⟨?_, q, _, hfound.1, hfound.2, List.getElem?_eq_getElem (hheap ▸ hqlt)⟩
  intro x hx
  rw [hfound.2, hheap]
  exact ht x (hsub x hx)

theorem LoadRSPinCS_linked (c : Conf K Obs Box) (rsp : ReedSheppPath K) (p : Nat)
    (st st1 : State K) (ht : st.Linked) (h : LoadRSPinCS c rsp p st = .ok st1) :
    st1.Linked := by
  unfold LoadRSPinCS at h
  split at h
  · cases h
    intro e he
    obtain ⟨q, hq, hlt⟩ := ht e he
    exact ⟨q, hq, by simp only [List.length_append, List.length_singleton]; omega⟩
  · cases h

theorem Rooted.lt {heap : List (Node3d K)} {s a : Nat} (h : Rooted heap s a) :
    a < heap.length := by
  cases h with
  | root node hn _ => exact (List.getElem?_eq_some_iff.1 hn).1
  | step _ q node hn _ _ _ => exact (List.getElem?_eq_some_iff.1 hn).1

theorem Rooted.mono {heap : List (Node3d K)} {s a : Nat} (l : List (Node3d K))
    (h : Rooted heap s a) : Rooted (heap ++ l) s a := by
  induction h with
  | root node hn hpre =>
    exact Rooted.root node
      (by rw [List.getElem?_append_left (List.getElem?_eq_some_iff.1 hn).1]; exact hn) hpre
  | step a q node hn hpre hlt _ ih =>
    exact Rooted.step a q node
      (by rw [List.getElem?_append_left (List.getElem?_eq_some_iff.1 hn).1]; exact hn)
      hpre hlt ih

/-- The addresses on the way from `a` to the root: each is the parent of the one
before and smaller than it, so that no address occurs twice. -/
theorem Rooted.chain {heap : List (Node3d K)} {s a : Nat} (h : Rooted heap s a) :
    ∃ l : List Nat,
      List.Chain (fun x q => ∃ node, heap[x]? = some node ∧ node.pre = some q ∧ q < x) a l ∧
      (a :: l).getLast? = some s ∧ (a :: l).Pairwise (fun x q => q < x) ∧
      ∃ node, heap[s]? = some node ∧ node.pre = none := by
  induction h with
  | root node hn hpre =>
    exact ⟨[], List.Chain.nil, rfl, List.pairwise_singleton _ _, node, hn, hpre⟩
  | step a q node hn hpre hlt _ ih =>
    obtain ⟨l, hc, hlast, hpw, hroot⟩ := ih
    refine ⟨q :: l, List.Chain.cons ⟨node, hn, hpre, hlt⟩ hc, ?_, ?_, hroot⟩
    · rw [List.getLast?_cons_cons]
      exact hlast
    · rw [List.pairwise_cons]
      refine ⟨?_, hpw⟩
      intro x hx
      rcases List.mem_cons.1 hx with rfl | hx1
      · exact hlt
      · exact lt_trans (List.rel_of_pairwise_cons hpw hx1) hlt

theorem map_find_append_null (m : NodeMap) (k k1 p : Nat)
    (h : map_find (m ++ [(k, none)]) k1 = some (some p)) : map_find m k1 = some (some p) := by
  unfold map_find at *
  rw [List.lookup_append] at h
  rcases hm : List.lookup k1 m with _ | v
  · rw [hm] at h
    simp only [Option.or, List.lookup_cons, List.lookup_nil] at h
    split at h <;> cases h
  · rw [hm] at h
    exact h

theorem map_find_insert_cases (m : NodeMap) (k k1 : Nat) (v : Option Nat) (p : Nat)
    (h : map_find (map_insert m k v) k1 = some (some p)) :
    map_find m k1 = some (some p) ∨ v = some p := by
  unfold map_insert at h
  split at h
  · exact Or.inl h
  · unfold map_find at *
    rw [List.lookup_append] at h
    rcases hm : List.lookup k1 m with _ | w
    · rw [hm] at h
      simp only [Option.or, List.lookup_cons, List.lookup_nil] at h
      split at h
      · exact Or.inr (Option.some.inj h)
      · cases h
    · rw [hm] at h
      exact Or.inl h

theorem take_current_anchored (c : Conf K Obs Box) (s : Nat) (st st1 : State K)
    (p : Option Nat) (ha : st.Anchored s) (h : take_current c st = some (p, st1)) :
    st1.Anchored s ∧ ∀ q, p = some q → Rooted st1.heap s q := by
  obtain ⟨e, _, _, _, hheap, hcl, hopen⟩ := take_current_cases c st st1 p h
  refine ⟨⟨?_, ?_⟩, ?_⟩
  · intro k q hk
    rw [hheap]
    rcases hopen with ⟨_, h2⟩ | ⟨_, _, h2⟩
    · rw [h2] at hk; exact ha.1 k q hk
    · rw [h2] at hk; exact ha.1 k q (map_find_append_null _ _ _ _ hk)
  · intro k q hk
    rw [hheap]
    rw [hcl] at hk
    exact ha.2 k q hk
  · intro q hq
    rw [hheap]
    rcases hopen with ⟨h1, _⟩ | ⟨_, h2, _⟩
    · rw [hq] at h1; exact ha.1 _ q h1
    · rw [hq] at h2; cases h2

theorem LoadRSPinCS_anchored (c : Conf K Obs Box) (s : Nat) (rsp : ReedSheppPath K)
    (p : Nat) (st st1 : State K) (ha : st.Anchored s) (hp : Rooted st.heap s p)
    (h : LoadRSPinCS c rsp p st = .ok st1) : st1.Anchored s := by
  unfold LoadRSPinCS at h
  split at h
  · cases h
    refine ⟨fun k q hk => (ha.1 k q hk).mono _, ?_⟩
    intro k q hk
    rcases map_find_insert_cases _ _ _ _ _ hk with h1 | h1
    · exact (ha.2 k q h1).mono _
    · have hq : q = st.heap.length := (Option.some.inj h1).symm
      subst hq
      exact Rooted.step _ p _ (List.getElem?_concat_length _ _) rfl hp.lt (hp.mono _)
  · cases h

theorem half_minus_one_eq (c : Conf K Obs Box) (h2 : 2 ≤ c.next_node_num)
    (hsize : c.next_node_num < SIZE_MOD) : half_minus_one c = c.next_node_num / 2 - 1 := by
  unfold half_minus_one
  unfold SIZE_MOD at *
  omega

theorem floor_log2_aux_eq : ∀ (fuel n : Nat), n ≤ fuel →
    floor_log2_aux fuel n = Nat.log 2 n := by
  intro fuel
  induction fuel with
  | zero =>
    intro n h
    have h0 : n = 0 := by omega
    subst h0
    simp [floor_log2_aux]
  | succ fuel ih =>
    intro n h
    unfold floor_log2_aux
    by_cases h2 : 2 ≤ n
    · rw [if_pos h2, ih (n / 2) (by omega), Nat.log_of_one_lt_of_le (by decide) h2]
    · rw [if_neg h2, Nat.log_of_lt (by omega)]

theorem floor_log2_eq (n : Nat) : floor_log2 n = Nat.log 2 n :=
  floor_log2_aux_eq n n (le_refl n)

/-- A `std::size_t` below `2 ^ 53` is converted exactly. -/
theorem to_double_of_lt (n : Nat) (h : n < 2 ^ 53) : to_double n = n := by
  unfold to_double
  rw [if_pos h]

theorem to_double_of_le (n : Nat) (h : n ≤ 2 ^ 53) : to_double n = n := by
  rcases Nat.lt_or_ge n (2 ^ 53) with h1 | h1
  · exact to_double_of_lt n h1
  · have h2 : n = 2 ^ 53 := le_antisymm h h1
    subst h2
    decide

/-- A `std::size_t` of 64 binary digits is converted to the nearest multiple of
2048, a tie going to the even multiple of 2048. -/
theorem to_double_top (n : Nat) (h1 : 2 ^ 63 ≤ n) (h2 : n < 2 ^ 64) :
    to_double n =
      if 2048 < 2 * (n % 2048) ∨ (2 * (n % 2048) = 2048 ∧ n / 2048 % 2 = 1) then
        (n / 2048 + 1) * 2048
      else n / 2048 * 2048 := by
  have hlog : floor_log2 n = 63 := by
    rw [floor_log2_eq]
    exact (Nat.log_eq_iff (Or.inl (by decide))).2 ⟨h1, h2⟩
  have hn : ¬ n < 2 ^ 53 := by omega
  unfold to_double
  rw [if_neg hn, hlog]
  rfl

theorem to_double_top_bounds (n : Nat) (h1 : 2 ^ 63 ≤ n) (h2 : n < 2 ^ 64) :
    to_double n % 2048 = 0 ∧ n ≤ to_double n + 1024 ∧ to_double n ≤ n + 1024 ∧
      (2 ^ 64 - 1024 ≤ n → to_double n = 2 ^ 64) := by
  rw [to_double_top n h1 h2]
  split_ifs with h <;> omega

end Bookkeeping

/-! ## Motion primitives -/

section Steering

variable {K Obs Box : Type} [LinearOrderedField K]

theorem primitive_distance (c : Conf K Obs Box) (i : Nat) :
    (primitive c i).2 = if i > half_minus_one c then c.step_size else -c.step_size := by
  unfold primitive
  split <;> simp

theorem integrate_eq (c : Conf K Obs Box) (steering d : K) :
    ∀ (n : Nat) (last : K × K × K) (ix iy iphi : List K),
      integrate c steering d n last (ix, iy, iphi) =
        ((advance c steering d)^[n] last,
          (ix ++ (List.range n).map (fun k => ((advance c steering d)^[k + 1] last).1),
            iy ++ (List.range n).map (fun k => ((advance c steering d)^[k + 1] last).2.1),
            iphi ++ (List.range n).map
              (fun k => ((advance c steering d)^[k + 1] last).2.2))) := by
  intro n
  induction n with
  | zero => intro last ix iy iphi; simp [integrate]
  | succ n ih =>
    rintro ⟨lx, ly, lphi⟩ ix iy iphi
    rw [integrate, ih]
    simp only [Function.iterate_succ_apply, List.range_succ_eq_map, List.map_cons,
      List.map_map, Function.comp_def, Function.iterate_zero, id_eq, List.append_assoc,
      List.singleton_append, advance]

/-- C18 (amended): for a `next_node_num_` of at least 2 (even or not) and a
primitive index `i` below `next_node_num_ / 2`, the branch with
`traveled_distance = -1 * step_size_` is taken and the offset `next_node_index -
next_node_num_ / 2`, computed in `std::size_t`, is `2 ^ 64 - (next_node_num_ / 2
- i)`, which is at least `2 ^ 63`.  Stored in the `double index` it is rounded to
53 significant digits: to a multiple of 2048 at most 1024 away, which is `2 ^ 64`
whenever `next_node_num_ / 2 - i` is at most 1024.  For a `next_node_num_` of at
least 4 the steering is the rounded sum of `-max_steer_` and the rounded product
of that rounded offset with the rounded quotient of `2 * max_steer_` by
`next_node_num_ / 2 - 1`. -/
theorem reverse_offset_wraps (c : Conf K Obs Box) (h2 : 2 ≤ c.next_node_num)
    (hsize : c.next_node_num < SIZE_MOD) (i : Nat) (hi : i < c.next_node_num / 2) :
    index_offset c i = 2 ^ 64 - (c.next_node_num / 2 - i) ∧
    2 ^ 63 ≤ index_offset c i ∧
    to_double (index_offset c i) % 2048 = 0 ∧
    index_offset c i ≤ to_double (index_offset c i) + 1024 ∧
    to_double (index_offset c i) ≤ index_offset c i + 1024 ∧
    (c.next_node_num / 2 - i ≤ 1024 → to_double (index_offset c i) = 2 ^ 64) ∧
    (4 ≤ c.next_node_num →
      primitive c i =
        (c.fl (-c.max_steer +
            c.fl (c.fl (c.fl (2 * c.max_steer) /
                ((to_double (c.next_node_num / 2 - 1) : Nat) : K)) *
              ((to_double (2 ^ 64 - (c.next_node_num / 2 - i)) : Nat) : K))),
          -1 * c.step_size)) := by
  have hhalf := half_minus_one_eq c h2 hsize
  have hoff : index_offset c i = 2 ^ 64 - (c.next_node_num / 2 - i) := by
    unfold index_offset
    unfold SIZE_MOD at *
    omega
  have hlow : 2 ^ 63 ≤ index_offset c i := by
    rw [hoff]
    unfold SIZE_MOD at *
    omega
  have hupp : index_offset c i < 2 ^ 64 := by
    rw [hoff]
    omega
  obtain ⟨hmul, hle, hge, htop⟩ := to_double_top_bounds (index_offset c i) hlow hupp
  refine ⟨hoff, hlow, hmul, hle, hge, fun hk => htop (by rw [hoff]; omega), fun _ => ?_⟩
  have hnot : ¬ i > c.next_node_num / 2 - 1 := by omega
  simp only [primitive, hhalf, hoff, hnot, if_false]

/-- C18 (amended) at a concrete input: `next_node_num_ = 4`, primitive index 0. -/
theorem reverse_offset_wraps_witness :
    index_offset (lane 1) 0 = 2 ^ 64 - ((lane 1).next_node_num / 2 - 0) ∧
    2 ^ 63 ≤ index_offset (lane 1) 0 ∧
    to_double (index_offset (lane 1) 0) % 2048 = 0 ∧
    index_offset (lane 1) 0 ≤ to_double (index_offset (lane 1) 0) + 1024 ∧
    to_double (index_offset (lane 1) 0) ≤ index_offset (lane 1) 0 + 1024 ∧
    ((lane 1).next_node_num / 2 - 0 ≤ 1024 →
      to_double (index_offset (lane 1) 0) = 2 ^ 64) ∧
    (4 ≤ (lane 1).next_node_num →
      primitive (lane 1) 0 =
        ((lane 1).fl (-(lane 1).max_steer +
            (lane 1).fl ((lane 1).fl ((lane 1).fl (2 * (lane 1).max_steer) /
                ((to_double ((lane 1).next_node_num / 2 - 1) : Nat) : ℚ)) *
              ((to_double (2 ^ 64 - ((lane 1).next_node_num / 2 - 0)) : Nat) : ℚ))),
          -1 * (lane 1).step_size)) :=
  reverse_offset_wraps (lane 1) (by decide) (by decide) 0 (by decide)

/-- C18 (counterexample): with `next_node_num_ = 4` and `max_steer_ = 1` the offset
of the primitive index 0 is `2 ^ 64 - 2` and that of index 1 is `2 ^ 64 - 1`;
both are stored as `2 ^ 64`, and the steering of both primitives is `2 ^ 65`,
where the expression of the claim gives `2 ^ 65 - 5` for index 0 and `2 ^ 65 - 3`
for index 1. -/
theorem reverse_steering_is_rounded :
    index_offset (lane 1) 0 = 2 ^ 64 - 2 ∧ index_offset (lane 1) 1 = 2 ^ 64 - 1 ∧
    to_double (index_offset (lane 1) 0) = 2 ^ 64 ∧
    to_double (index_offset (lane 1) 1) = 2 ^ 64 ∧
    (primitive (lane 1) 0).1 = 2 ^ 65 ∧ (primitive (lane 1) 1).1 = 2 ^ 65 ∧
    -(lane 1).max_steer +
        (2 * (lane 1).max_steer / (((lane 1).next_node_num / 2 - 1 : Nat) : ℚ)) *
          ((2 ^ 64 - ((lane 1).next_node_num / 2 - 0) : Nat) : ℚ) = 2 ^ 65 - 5 ∧
    -(lane 1).max_steer +
        (2 * (lane 1).max_steer / (((lane 1).next_node_num / 2 - 1 : Nat) : ℚ)) *
          ((2 ^ 64 - ((lane 1).next_node_num / 2 - 1) : Nat) : ℚ) = 2 ^ 65 - 3 ∧
    (primitive (lane 1) 0).1 ≠
      -(lane 1).max_steer +
        (2 * (lane 1).max_steer / (((lane 1).next_node_num / 2 - 1 : Nat) : ℚ)) *
          ((2 ^ 64 - ((lane 1).next_node_num / 2 - 0) : Nat) : ℚ) := by
  decide!

/-- C19 (amended): for every `next_node_num_` (a `std::size_t`) the divisor
`next_node_num_ / 2 - 1` of the steering increment is zero exactly when
`next_node_num_` is 2 or 3, so the division is a division by zero exactly for
these two values, the even value 2 among them; and for `next_node_num_` below 2
the expression wraps to `2 ^ 64 - 1`. -/
theorem steering_divisor_zero_iff (c : Conf K Obs Box)
    (hsize : c.next_node_num < SIZE_MOD) :
    (half_minus_one c = 0 ↔ c.next_node_num = 2 ∨ c.next_node_num = 3) ∧
    (((half_minus_one c : Nat) : K) = 0 ↔ c.next_node_num = 2 ∨ c.next_node_num = 3) ∧
    (c.next_node_num < 2 → half_minus_one c = 2 ^ 64 - 1) := by
  have h1 : half_minus_one c = 0 ↔ c.next_node_num = 2 ∨ c.next_node_num = 3 := by
    unfold half_minus_one
    unfold SIZE_MOD at *
    omega
  refine ⟨h1, ?_, ?_⟩
  · rw [Nat.cast_eq_zero]
    exact h1
  · intro h
    unfold half_minus_one
    unfold SIZE_MOD at *
    omega

/-- C19 at a concrete input: `next_node_num_ = 4`. -/
theorem steering_divisor_zero_iff_witness :
    (half_minus_one (lane 1) = 0 ↔
      (lane 1).next_node_num = 2 ∨ (lane 1).next_node_num = 3) ∧
    (((half_minus_one (lane 1) : Nat) : ℚ) = 0 ↔
      (lane 1).next_node_num = 2 ∨ (lane 1).next_node_num = 3) ∧
    ((lane 1).next_node_num < 2 → half_minus_one (lane 1) = 2 ^ 64 - 1) :=
  steering_divisor_zero_iff (lane 1) (by decide)

end Steering

section Primitives

variable {K Obs Box : Type} [LinearOrderedField K] [FloorRing K]

theorem step_count_pos (c : Conf K Obs Box) (hstep : 0 < c.step_size) :
    step_count c = some ⌈c.fl (arc c / c.step_size)⌉₊ := by
  unfold step_count
  rw [if_neg (ne_of_gt hstep)]

/-- C6 (the failing input): with `next_node_num_ = 4` and `max_steer_ = 1` the
steering angles of the primitives 0, 1, 2, 3 are `2 ^ 65`, `2 ^ 65`, 3 and 5;
none lies in `[-1, 1]`. -/
theorem steering_of_lane_primitives :
    (List.range (lane 1).next_node_num).map (fun i => (primitive (lane 1) i).1) =
      [2 ^ 65, 2 ^ 65, 3, 5] ∧
    ∀ i ∈ List.range (lane 1).next_node_num,
      ¬ (-(lane 1).max_steer ≤ (primitive (lane 1) i).1 ∧
        (primitive (lane 1) i).1 ≤ (lane 1).max_steer) := by
  decide!

/-- Rounding to the nearest `double` keeps a number that is not negative so. -/
theorem round_double_nonneg (x : ℚ) (h : 0 ≤ x) : 0 ≤ round_double x := by
  unfold round_double
  rw [if_neg (not_lt.2 h)]
  split_ifs with h0
  · exact le_refl 0
  · dsimp only
    positivity

theorem segment_getElem {α : Type} (f : Nat → α) (n j : Nat) (hj : j ≤ n) :
    ([f 0] ++ (List.range n).map (fun k => f (k + 1)))[j]? = some (f j) := by
  cases j with
  | zero => simp
  | succ j =>
    have hj1 : j < n := hj
    simp [List.getElem?_range hj1]

/-- C14: when `Next_node_generator` returns a child, its three traversed vectors
have one entry more than the loop has passes; they start with the pose of the
parent; each pose follows from the one before by `x' = x + d * cos(phi)`,
`y' = y + d * sin(phi)`, `phi' = NormalizeAngle(phi + d / wheel_base *
tan(steering))`, where `d` is `step_size_` in the branch of the forward
primitives and `-step_size_` in the other branch; the last pose is the pose of
the child; the parent of the child is the expanded node; and for a step size
that is not negative the children with forward gear are those with
`d = step_size_` and the children with reverse gear have `d = -step_size_`. -/
theorem kinematic_segment (c : Conf K Obs Box) (current_node : Node3d K)
    (current_ptr i : Nat) (node : Node3d K)
    (h : Next_node_generator c current_node current_ptr i = some node) :
    ∃ (n : Nat) (d : K), step_count c = some n ∧
      d = (if i > half_minus_one c then c.step_size else -c.step_size) ∧
      node.traversed_x.length = n + 1 ∧ node.traversed_y.length = n + 1 ∧
      node.traversed_phi.length = n + 1 ∧
      node.traversed_x[0]? = some current_node.x ∧
      node.traversed_y[0]? = some current_node.y ∧
      node.traversed_phi[0]? = some current_node.phi ∧
      (∀ j, j < n → ∃ x y phi, node.traversed_x[j]? = some x ∧
        node.traversed_y[j]? = some y ∧ node.traversed_phi[j]? = some phi ∧
        node.traversed_x[j + 1]? = some (x + d * c.cos phi) ∧
        node.traversed_y[j + 1]? = some (y + d * c.sin phi) ∧
        node.traversed_phi[j + 1]? =
          some (c.NormalizeAngle (phi + d / c.wheel_base * c.tan (primitive c i).1))) ∧
      node.traversed_x[n]? = some node.x ∧ node.traversed_y[n]? = some node.y ∧
      node.traversed_phi[n]? = some node.phi ∧
      node.pre = some current_ptr ∧
      (0 ≤ c.step_size → (node.direc = some true → d = c.step_size) ∧
        (node.direc = some false → d = -c.step_size)) := by
  unfold Next_node_generator at h
  rcases hn : step_count c with _ | n
  · rw [hn] at h; cases h
  · rw [hn] at h
    simp only [integrate_eq, Option.some.injEq] at h
    have hd : (primitive c i).2 = if i > half_minus_one c then c.step_size else -c.step_size :=
      primitive_distance c i
    generalize (primitive c i).2 = d at h hd
    generalize (primitive c i).1 = steering at h
    subst h
    refine ⟨n, d, rfl, hd, by simp [Node3d.ofPath], by simp [Node3d.ofPath],
      by simp [Node3d.ofPath], by simp [Node3d.ofPath], by simp [Node3d.ofPath],
      by simp [Node3d.ofPath], ?_, ?_, ?_, ?_, rfl, ?_⟩
    · intro j hj
      refine ⟨((advance c steering d)^[j] (current_node.x, current_node.y, current_node.phi)).1,
        ((advance c steering d)^[j] (current_node.x, current_node.y, current_node.phi)).2.1,
        ((advance c steering d)^[j] (current_node.x, current_node.y, current_node.phi)).2.2,
        ?_, ?_, ?_, ?_, ?_, ?_⟩
      · exact segment_getElem
          (fun k => ((advance c steering d)^[k] (current_node.x, current_node.y,
            current_node.phi)).1) n j (le_of_lt hj)
      · exact segment_getElem
          (fun k => ((advance c steering d)^[k] (current_node.x, current_node.y,
            current_node.phi)).2.1) n j (le_of_lt hj)
      · exact segment_getElem
          (fun k => ((advance c steering d)^[k] (current_node.x, current_node.y,
            current_node.phi)).2.2) n j (le_of_lt hj)
      · rw [show (Node3d.traversed_x _)[j + 1]? = _ from segment_getElem
          (fun k => ((advance c steering d)^[k] (current_node.x, current_node.y,
            current_node.phi)).1) n (j + 1) hj]
        simp only [Function.iterate_succ_apply', advance]
      · rw [show (Node3d.traversed_y _)[j + 1]? = _ from segment_getElem
          (fun k => ((advance c steering d)^[k] (current_node.x, current_node.y,
            current_node.phi)).2.1) n (j + 1) hj]
        simp only [Function.iterate_succ_apply', advance]
      · rw [show (Node3d.traversed_phi _)[j + 1]? = _ from segment_getElem
          (fun k => ((advance c steering d)^[k] (current_node.x, current_node.y,
            current_node.phi)).2.2) n (j + 1) hj]
        simp only [Function.iterate_succ_apply', advance]
    · exact segment_getElem
        (fun k => ((advance c steering d)^[k] (current_node.x, current_node.y,
          current_node.phi)).1) n n (le_refl _)
    · exact segment_getElem
        (fun k => ((advance c steering d)^[k] (current_node.x, current_node.y,
          current_node.phi)).2.1) n n (le_refl _)
    · exact segment_getElem
        (fun k => ((advance c steering d)^[k] (current_node.x, current_node.y,
          current_node.phi)).2.2) n n (le_refl _)
    · intro hstep
      simp only [Option.some.injEq, decide_eq_true_eq, decide_eq_false_iff_not, gt_iff_lt,
        not_lt]
      constructor
      · intro hpos
        rw [hd] at hpos ⊢
        split_ifs at hpos ⊢ with hi
        · rfl
        · linarith
      · intro hneg
        rw [hd] at hneg ⊢
        split_ifs at hneg ⊢ with hi
        · linarith
        · rfl

/-- C14 at a concrete input: the forward child of the start node of `lane 0`. -/
theorem kinematic_segment_witness :
    ∃ (n : Nat) (d : ℚ), step_count (lane 0) = some n ∧
      d = (if 2 > half_minus_one (lane 0) then (lane 0).step_size
        else -(lane 0).step_size) ∧
      lane_ahead.traversed_x.length = n + 1 ∧ lane_ahead.traversed_y.length = n + 1 ∧
      lane_ahead.traversed_phi.length = n + 1 ∧
      lane_ahead.traversed_x[0]? = some lane_start.x ∧
      lane_ahead.traversed_y[0]? = some lane_start.y ∧
      lane_ahead.traversed_phi[0]? = some lane_start.phi ∧
      (∀ j, j < n → ∃ x y phi, lane_ahead.traversed_x[j]? = some x ∧
        lane_ahead.traversed_y[j]? = some y ∧ lane_ahead.traversed_phi[j]? = some phi ∧
        lane_ahead.traversed_x[j + 1]? = some (x + d * (lane 0).cos phi) ∧
        lane_ahead.traversed_y[j + 1]? = some (y + d * (lane 0).sin phi) ∧
        lane_ahead.traversed_phi[j + 1]? =
          some ((lane 0).NormalizeAngle
            (phi + d / (lane 0).wheel_base * (lane 0).tan (primitive (lane 0) 2).1))) ∧
      lane_ahead.traversed_x[n]? = some lane_ahead.x ∧
      lane_ahead.traversed_y[n]? = some lane_ahead.y ∧
      lane_ahead.traversed_phi[n]? = some lane_ahead.phi ∧
      lane_ahead.pre = some 0 ∧
      (0 ≤ (lane 0).step_size → (lane_ahead.direc = some true → d = (lane 0).step_size) ∧
        (lane_ahead.direc = some false → d = -(lane 0).step_size)) :=
  kinematic_segment (lane 0) lane_start 0 2 lane_ahead (by decide!)

/-- C19 (counterexample): the planner `pair` has the even `next_node_num_ = 2`;
nothing rejects it, `Next_node_generator` returns a child for both indices, and
the divisor `next_node_num_ / 2 - 1` of the steering increment is zero. -/
theorem even_count_with_zero_divisor :
    Even pair.next_node_num ∧ half_minus_one pair = 0 ∧
    ((half_minus_one pair : Nat) : ℚ) = 0 ∧
    (∀ i ∈ List.range pair.next_node_num,
      (Next_node_generator pair lane_start 0 i).isSome = true) ∧
    (for_loop pair [] lane_start 0 (List.range pair.next_node_num)
      (seed pair 0 0 0 6 0 0 State.empty)).isSome = true := by
  refine ⟨by decide, by decide!, by decide!, by decide!, by decide!⟩

/-- C15 (amended): for positive `step_size_`, `xy_grid_resolution_` and `sqrt2`
(rounding keeps a number that is not negative so) the number `n` of passes of
the integration loop is the least natural number that is not below the bound
`q = arc / step_size_` as computed, the rounded quotient of the rounded product
`arc = sqrt2 * xy_grid_resolution_`: it is the ceiling of `q`, the pass `i` runs
exactly when `i` is below `q` (for `q` at most `2 ^ 53` every value of the
counter that is compared with `q` is converted to `double` exactly), and the arc
length `n * step_size_` is at least `q * step_size_` and exceeds it by less than
one step. -/
theorem step_count_is_ceiling (c : Conf K Obs Box) (hstep : 0 < c.step_size)
    (hres : 0 < c.xy_grid_resolution) (hsqrt : 0 < c.sqrt2)
    (hfl : ∀ x : K, 0 ≤ x → 0 ≤ c.fl x)
    (hbig : c.fl (c.fl (c.sqrt2 * c.xy_grid_resolution) / c.step_size) ≤ 2 ^ 53) :
    ∃ n : Nat, step_count c = some n ∧
      n = ⌈c.fl (c.fl (c.sqrt2 * c.xy_grid_resolution) / c.step_size)⌉₊ ∧
      (∀ i : Nat, i < n ↔
        (i : K) < c.fl (c.fl (c.sqrt2 * c.xy_grid_resolution) / c.step_size)) ∧
      (∀ i : Nat, i ≤ n → to_double i = i) ∧
      c.fl (c.fl (c.sqrt2 * c.xy_grid_resolution) / c.step_size) * c.step_size ≤
        (n : K) * c.step_size ∧
      (n : K) * c.step_size <
        c.fl (c.fl (c.sqrt2 * c.xy_grid_resolution) / c.step_size) * c.step_size +
          c.step_size := by
  have harc : 0 ≤ c.fl (c.sqrt2 * c.xy_grid_resolution) :=
    hfl _ (le_of_lt (mul_pos hsqrt hres))
  have hq : 0 ≤ c.fl (c.fl (c.sqrt2 * c.xy_grid_resolution) / c.step_size) :=
    hfl _ (div_nonneg harc (le_of_lt hstep))
  refine ⟨_, step_count_pos c hstep, rfl, fun i => Nat.lt_ceil, ?_, ?_, ?_⟩
  · intro i hi
    refine to_double_of_le i (le_trans hi (Nat.ceil_le.2 ?_))
    unfold arc
    exact_mod_cast hbig
  · exact mul_le_mul_of_nonneg_right (Nat.le_ceil _) (le_of_lt hstep)
  · have h := Nat.ceil_lt_add_one hq
    have h1 := mul_lt_mul_of_pos_right h hstep
    rw [add_mul, one_mul] at h1
    exact h1

/-- C15 (amended) at a concrete input: the planner `fine`, where the exact
quotient is above 5 and the rounded quotient is 5. -/
theorem step_count_is_ceiling_witness :
    ∃ n : Nat, step_count fine = some n ∧
      n = ⌈fine.fl (fine.fl (fine.sqrt2 * fine.xy_grid_resolution) / fine.step_size)⌉₊ ∧
      (∀ i : Nat, i < n ↔
        (i : ℚ) <
          fine.fl (fine.fl (fine.sqrt2 * fine.xy_grid_resolution) / fine.step_size)) ∧
      (∀ i : Nat, i ≤ n → to_double i = i) ∧
      fine.fl (fine.fl (fine.sqrt2 * fine.xy_grid_resolution) / fine.step_size) *
          fine.step_size ≤ (n : ℚ) * fine.step_size ∧
      (n : ℚ) * fine.step_size <
        fine.fl (fine.fl (fine.sqrt2 * fine.xy_grid_resolution) / fine.step_size) *
            fine.step_size + fine.step_size :=
  step_count_is_ceiling fine (by decide!) (by decide!) (by decide!)
    round_double_nonneg (by decide!)

/-- With `step_size_ = 0.282842712474619` and `xy_grid_resolution_ = 1` the exact
quotient of the arc by the step is above 5 by less than a unit in the last
place, the rounded quotient is 5, and the loop runs five times: the segment has
six poses and the arc length travelled is below the target arc. -/
theorem five_steps_for_rounded_quotient :
    arc fine = fine.sqrt2 * fine.xy_grid_resolution ∧
    arc fine / fine.step_size = 5 + 1 / 2547620669010309 ∧
    fine.fl (arc fine / fine.step_size) = 5 ∧
    step_count fine = some 5 ∧
    (Next_node_generator fine lane_start 0 2).map (fun n => n.traversed_x.length) =
      some 6 ∧
    (5 : ℚ) * fine.step_size < fine.sqrt2 * fine.xy_grid_resolution := by
  refine ⟨by decide!, by decide!, by decide!, by decide!, by decide!, by decide!⟩

/-- C15 (counterexample): with `step_size_ = 1` and `xy_grid_resolution_ = 1` the
quotient is about 1.41 and its truncation is 1, but the loop runs for `i = 0`
and `i = 1`: the forward child of the start node has three poses, and the arc
length travelled, 2, exceeds the target arc. -/
theorem two_steps_for_truncated_quotient_one :
    ⌊(lane 0).sqrt2 * (lane 0).xy_grid_resolution / (lane 0).step_size⌋₊ = 1 ∧
    step_count (lane 0) = some 2 ∧
    Next_node_generator (lane 0) lane_start 0 2 = some lane_ahead ∧
    lane_ahead.traversed_x = [0, 1, 2] ∧
    ¬ ((2 : ℚ) * (lane 0).step_size ≤ (lane 0).sqrt2 * (lane 0).xy_grid_resolution) := by
  refine ⟨by decide!, by decide!, by decide!, by decide!, by decide!⟩

end Primitives

/-! ## The search loop -/

section Search

variable {K Obs Box : Type} [LinearOrderedField K] [FloorRing K]

theorem Plan_loop_ret (c : Conf K Obs Box) (obstacles : List Obs) (end_node : Node3d K) :
    ∀ (fuel pops : Nat) (st : State K) (ret : Bool) (e : Exit) (n : Nat) (st1 : State K),
      Plan_loop c obstacles end_node fuel pops st = some (.returned ret e n st1) →
      ret = true := by
  intro fuel
  induction fuel with
  | zero => intro pops st ret e n st1 h; simp [Plan_loop] at h
  | succ fuel ih =>
    intro pops st ret e n st1 h
    rw [Plan_loop] at h
    split at h
    · simp only [Option.some.injEq, Outcome.returned.injEq] at h; exact h.1.symm
    · simp only [Option.some.injEq, Outcome.returned.injEq] at h; exact h.1.symm
    · exact ih _ _ _ _ _ _ h
    · simp at h
    · simp at h

/-- Whatever way the loop was left, the boolean that `Plan` returns is true. -/
theorem Plan_ret (c : Conf K Obs Box) (fuel : Nat) (sx sy sphi ex ey ephi : K)
    (obstacles : List Obs) (st : State K) (ret : Bool) (e : Exit) (n : Nat) (st1 : State K)
    (h : Plan c fuel sx sy sphi ex ey ephi obstacles st = some (.returned ret e n st1)) :
    ret = true :=
  Plan_loop_ret c obstacles _ fuel 0 _ ret e n st1 h

theorem for_body_cases (c : Conf K Obs Box) (obstacles : List Obs) (current_node : Node3d K)
    (current_ptr : Nat) (st st1 : State K) (i : Nat)
    (h : for_body c obstacles current_node current_ptr st i = some st1) :
    ∃ node, Next_node_generator c current_node current_ptr i = some node ∧
      (st1 = { st with heap := st.heap ++ [node] } ∨
        (ValidityCheck c obstacles node = true ∧
          map_find st.close_set (node.GetIndex c) = none ∧
          map_find st.open_set (node.GetIndex c) = none ∧
          st1 = { heap := st.heap ++ [node]
                  open_set := st.open_set ++ [(node.GetIndex c, some st.heap.length)]
                  open_pq := st.open_pq ++ [(node.GetIndex c, c.GetCost node)]
                  close_set := st.close_set })) := by
  unfold for_body at h
  rcases hn : Next_node_generator c current_node current_ptr i with _ | node
  · rw [hn] at h; cases h
  · rw [hn] at h
    refine ⟨node, rfl, ?_⟩
    simp only at h
    split_ifs at h with h1 h2 h3
    · left; cases h; rfl
    · left; cases h; rfl
    · right
      simp only [Option.isNone_iff_eq_none] at h3
      simp only [Bool.not_eq_true, Option.not_isSome, Option.isNone_iff_eq_none] at h2
      simp only [Bool.not_eq_true', Bool.not_eq_false] at h1
      refine ⟨h1, h2, h3, ?_⟩
      cases h
      rw [map_insert_absent _ _ _ h3]
    · left; cases h; rfl

theorem iteration_again_cases (c : Conf K Obs Box) (obstacles : List Obs)
    (end_node : Node3d K) (st st2 : State K)
    (h : iteration c obstacles end_node st = .again st2) :
    ∃ (p : Nat) (st1 : State K) (node : Node3d K) (rsp : ReedSheppPath K),
      take_current c st = some (some p, st1) ∧ st1.heap[p]? = some node ∧
      AnalyticExpansion c obstacles node end_node = .ok (false, rsp) ∧
      for_loop c obstacles node p (List.range c.next_node_num) st1 = some st2 := by
  unfold iteration at h
  split at h
  · cases h
  · cases h
  · rename_i p st1 htc
    split at h
    · cases h
    · rename_i node hnode
      split at h
      · cases h
      · split at h <;> cases h
      · rename_i rsp hexp
        split at h
        · cases h
        · rename_i st3 hloop
          cases h
          exact ⟨p, st1, node, rsp, htc, hnode, hexp, hloop⟩

theorem iteration_broke_cases (c : Conf K Obs Box) (obstacles : List Obs)
    (end_node : Node3d K) (st st2 : State K)
    (h : iteration c obstacles end_node st = .broke st2) :
    ∃ (p : Nat) (st1 : State K) (node : Node3d K) (rsp : ReedSheppPath K),
      take_current c st = some (some p, st1) ∧ st1.heap[p]? = some node ∧
      AnalyticExpansion c obstacles node end_node = .ok (true, rsp) ∧
      LoadRSPinCS c rsp p st1 = .ok st2 := by
  unfold iteration at h
  split at h
  · cases h
  · cases h
  · rename_i p st1 htc
    split at h
    · cases h
    · rename_i node hnode
      split at h
      · cases h
      · rename_i rsp hexp
        split at h
        · cases h
        · rename_i st3 hload
          cases h
          exact ⟨p, st1, node, rsp, htc, hnode, hexp, hload⟩
      · split at h <;> cases h

theorem for_loop_induction (c : Conf K Obs Box) (obstacles : List Obs) (current_node : Node3d K)
    (current_ptr : Nat) (P : State K → Prop)
    (hP : ∀ st st1 i, P st →
      for_body c obstacles current_node current_ptr st i = some st1 → P st1) :
    ∀ (l : List Nat) (st st1 : State K), P st →
      for_loop c obstacles current_node current_ptr l st = some st1 → P st1 := by
  intro l
  induction l with
  | nil => intro st st1 h0 h; simp only [for_loop, Option.some.injEq] at h; exact h ▸ h0
  | cons i rest ih =>
    intro st st1 h0 h
    rw [for_loop] at h
    rcases hb : for_body c obstacles current_node current_ptr st i with _ | st2
    · rw [hb] at h; cases h
    · rw [hb] at h
      exact ih st2 st1 (hP st st2 i h0 hb) h

theorem loop_head_induction (c : Conf K Obs Box) (obstacles : List Obs) (end_node : Node3d K)
    (P : State K → Prop)
    (hP : ∀ st st1, P st → iteration c obstacles end_node st = .again st1 → P st1) :
    ∀ (k : Nat) (s0 st : State K), P s0 →
      loop_head c obstacles end_node k s0 = some st → P st := by
  intro k
  induction k with
  | zero => intro s0 st h0 h; simp only [loop_head, Option.some.injEq] at h; exact h ▸ h0
  | succ k ih =>
    intro s0 st h0 h
    rw [loop_head] at h
    split at h
    · rename_i st1 hit
      exact ih st1 st (hP s0 st1 h0 hit) h
    · cases h

theorem for_body_close_set (c : Conf K Obs Box) (obstacles : List Obs) (current_node : Node3d K)
    (current_ptr : Nat) (st st1 : State K) (i : Nat)
    (h : for_body c obstacles current_node current_ptr st i = some st1) :
    st1.close_set = st.close_set := by
  obtain ⟨node, _, h1 | ⟨_, _, _, h1⟩⟩ := for_body_cases c obstacles current_node current_ptr st st1 i h
    <;> rw [h1]

theorem for_loop_close_set (c : Conf K Obs Box) (obstacles : List Obs) (current_node : Node3d K)
    (current_ptr : Nat) (l : List Nat) (st st1 : State K)
    (h : for_loop c obstacles current_node current_ptr l st = some st1) :
    st1.close_set = st.close_set :=
  for_loop_induction c obstacles current_node current_ptr
    (fun s => s.close_set = st.close_set)
    (fun s s1 i hs hb =>
      (for_body_close_set c obstacles current_node current_ptr s s1 i hb).trans hs)
    l st st1 rfl h

theorem iteration_again_close_set (c : Conf K Obs Box) (obstacles : List Obs)
    (end_node : Node3d K) (st st2 : State K)
    (h : iteration c obstacles end_node st = .again st2) : st2.close_set = st.close_set := by
  obtain ⟨p, st1, node, rsp, htc, _, _, hloop⟩ := iteration_again_cases c obstacles end_node st st2 h
  obtain ⟨_, _, _, _, _, hcl, _⟩ := take_current_cases c st st1 _ htc
  rw [for_loop_close_set c obstacles node p _ st1 st2 hloop, hcl]

theorem loop_head_close_set (c : Conf K Obs Box) (obstacles : List Obs) (end_node : Node3d K)
    (k : Nat) (s0 st : State K) (h : loop_head c obstacles end_node k s0 = some st) :
    st.close_set = s0.close_set :=
  loop_head_induction c obstacles end_node (fun s => s.close_set = s0.close_set)
    (fun s s1 hs hit => (iteration_again_close_set c obstacles end_node s s1 hit).trans hs)
    k s0 st rfl h

/-- C7 (amended): in a run of `Plan` started with empty open set, queue and closed
set, no index is a key of both the open set and the closed set at any point
before `LoadRSPinCS`.  A point after `LoadRSPinCS` is reached from a pass that
popped a node for which `AnalyticExpansion` returned true with a curve; the
index of the last pose of that curve is then a key of the closed set, put there
without a look at the open set, which is as the pop left it: an index is a key
of both sets exactly when it is that index and that index is a key of the open
set. -/
theorem open_closed_disjoint_until_shortcut (c : Conf K Obs Box) (obstacles : List Obs)
    (sx sy sphi ex ey ephi : K) (heap : List (Node3d K)) (b : Bool) (t : State K)
    (h : Point c obstacles (Node3d.ofPath ex ey ephi [ex] [ey] [ephi])
      (seed c sx sy sphi ex ey ephi
        { heap := heap, open_set := [], open_pq := [], close_set := [] }) b t) :
    (b = false → ∀ k, ¬ (k ∈ map_keys t.open_set ∧ k ∈ map_keys t.close_set)) ∧
    (b = true → ∃ (k : Nat) (st st1 : State K) (p : Nat) (node : Node3d K)
        (rsp : ReedSheppPath K) (bx by_ bphi : K),
      loop_head c obstacles (Node3d.ofPath ex ey ephi [ex] [ey] [ephi]) k
        (seed c sx sy sphi ex ey ephi
          { heap := heap, open_set := [], open_pq := [], close_set := [] }) = some st ∧
      take_current c st = some (some p, st1) ∧
      st1.heap[p]? = some node ∧
      AnalyticExpansion c obstacles node (Node3d.ofPath ex ey ephi [ex] [ey] [ephi]) =
        .ok (true, rsp) ∧
      LoadRSPinCS c rsp p st1 = .ok t ∧
      rsp.x.getLast? = some bx ∧ rsp.y.getLast? = some by_ ∧
      rsp.phi.getLast? = some bphi ∧
      c.GetIndex bx by_ bphi ∈ map_keys t.close_set ∧
      t.open_set = st1.open_set ∧
      ∀ i, (i ∈ map_keys t.open_set ∧ i ∈ map_keys t.close_set) ↔
        (i = c.GetIndex bx by_ bphi ∧ c.GetIndex bx by_ bphi ∈ map_keys st1.open_set)) := by
  have hseed : (seed c sx sy sphi ex ey ephi
      { heap := heap, open_set := [], open_pq := [], close_set := [] }).close_set = [] := rfl
  have hempty : ∀ s : State K, s.close_set = [] →
      ∀ k, ¬ (k ∈ map_keys s.open_set ∧ k ∈ map_keys s.close_set) := by
    intro s hs k hk
    rw [hs] at hk
    simp [map_keys] at hk
  cases h with
  | head k st hk =>
    refine ⟨fun _ => hempty _ ?_, fun hb => by cases hb⟩
    rw [loop_head_close_set c obstacles _ k _ _ hk, hseed]
  | popped k st st1 p hk htc =>
    refine ⟨fun _ => hempty _ ?_, fun hb => by cases hb⟩
    obtain ⟨_, _, _, _, _, hcl, _⟩ := take_current_cases c st t _ htc
    rw [hcl, loop_head_close_set c obstacles _ k _ _ hk, hseed]
  | child k st st1 _ p j node rsp hk htc _ _ _ hloop =>
    refine ⟨fun _ => hempty _ ?_, fun hb => by cases hb⟩
    obtain ⟨_, _, _, _, _, hcl, _⟩ := take_current_cases c st st1 _ htc
    rw [for_loop_close_set c obstacles node p _ st1 t hloop, hcl,
      loop_head_close_set c obstacles _ k _ _ hk, hseed]
  | loaded k st st1 _ p node rsp hk htc hnode hexp hload =>
    refine ⟨fun hb => (by cases hb), fun _ => ?_⟩
    obtain ⟨_, _, _, _, _, hcl, _⟩ := take_current_cases c st st1 _ htc
    have hst1 : st1.close_set = [] := by
      rw [hcl, loop_head_close_set c obstacles _ k _ _ hk, hseed]
    have hload1 := hload
    unfold LoadRSPinCS at hload
    split at hload
    · rename_i bx by_ bphi hx hy hphi
      refine ⟨k, st, st1, p, node, rsp, bx, by_, bphi, hk, htc, hnode, hexp, hload1,
        hx, hy, hphi, ?_⟩
      cases hload
      refine ⟨?_, rfl, fun i => ?_⟩
      · simp [hst1, map_insert, map_find, map_keys, Node3d.GetIndex, Node3d.ofPath]
      · simp only [hst1, map_insert, map_find, map_keys, Node3d.GetIndex, Node3d.ofPath,
          List.lookup_nil, Option.isSome_none, Bool.false_eq_true, if_false, List.nil_append,
          List.map_cons, List.map_nil, List.mem_singleton]
        constructor
        · rintro ⟨h1, h2⟩
          subst h2
          exact ⟨rfl, h1⟩
        · rintro ⟨h1, h2⟩
          subst h1
          exact ⟨h2, rfl⟩
    · cases hload

/-- The run from `(0, 0, 0)` to `(1/2, 0, 0)` without obstacles reaches `near_final`
through `LoadRSPinCS`. -/
theorem near_final_point :
    Point (lane 0) [] (Node3d.ofPath (1/2) 0 0 [1/2] [0] [0])
      (seed (lane 0) 0 0 0 (1/2) 0 0
        { heap := [], open_set := [], open_pq := [], close_set := [] }) true near_final :=
  Point.loaded 0 _ near_popped near_final 0 lane_start
    ⟨[0, 1/4, 1/2], [0, 0, 0], [0, 0, 0]⟩ rfl (by decide!) (by decide!) (by decide!)
    (by decide!)

/-- C7 (amended) at a concrete input: the state after `LoadRSPinCS` in the run to
`(1/2, 0, 0)`. -/
theorem open_closed_disjoint_until_shortcut_witness :
    (true = false →
      ∀ k, ¬ (k ∈ map_keys near_final.open_set ∧ k ∈ map_keys near_final.close_set)) ∧
    (true = true → ∃ (k : Nat) (st st1 : State ℚ) (p : Nat) (node : Node3d ℚ)
        (rsp : ReedSheppPath ℚ) (bx by_ bphi : ℚ),
      loop_head (lane 0) [] (Node3d.ofPath (1/2) 0 0 [1/2] [0] [0]) k
        (seed (lane 0) 0 0 0 (1/2) 0 0
          { heap := [], open_set := [], open_pq := [], close_set := [] }) = some st ∧
      take_current (lane 0) st = some (some p, st1) ∧
      st1.heap[p]? = some node ∧
      AnalyticExpansion (lane 0) [] node (Node3d.ofPath (1/2) 0 0 [1/2] [0] [0]) =
        .ok (true, rsp) ∧
      LoadRSPinCS (lane 0) rsp p st1 = .ok near_final ∧
      rsp.x.getLast? = some bx ∧ rsp.y.getLast? = some by_ ∧
      rsp.phi.getLast? = some bphi ∧
      (lane 0).GetIndex bx by_ bphi ∈ map_keys near_final.close_set ∧
      near_final.open_set = st1.open_set ∧
      ∀ i, (i ∈ map_keys near_final.open_set ∧ i ∈ map_keys near_final.close_set) ↔
        (i = (lane 0).GetIndex bx by_ bphi ∧
          (lane 0).GetIndex bx by_ bphi ∈ map_keys st1.open_set)) :=
  open_closed_disjoint_until_shortcut (lane 0) [] 0 0 0 (1/2) 0 0 [] true near_final
    near_final_point

/-- C7 (counterexample): start `(0, 0, 0)` and goal `(1/2, 0, 0)` lie in the same
cell; the run without obstacles ends, after `LoadRSPinCS`, in a state where the
index 4020100 of that cell is a key of the open set and of the closed set. -/
theorem open_and_closed_share_a_key :
    Plan (lane 0) 1 0 0 0 (1/2) 0 0 [] State.empty =
      some (.returned true .shortcut 1 near_final) ∧
    (∃ (b : Bool) (t : State ℚ),
      Point (lane 0) [] (Node3d.ofPath (1/2) 0 0 [1/2] [0] [0])
        (seed (lane 0) 0 0 0 (1/2) 0 0
          { heap := [], open_set := [], open_pq := [], close_set := [] }) b t ∧
      ∃ k, k ∈ map_keys t.open_set ∧ k ∈ map_keys t.close_set) :=
  ⟨by decide!, true, near_final, near_final_point, 4020100, by decide, by decide⟩

/-- C4 (the failing input): from `(0, 0, 0)` to `(6, 0, 0)` with obstacles at
`x = 3` and `x = 1`, the first pass of the loop stores the forward child (address
4) in the open set and the queue, although the second pose `(1, 0, 0)` of its
segment fails `ValidityCheck`. -/
theorem colliding_segment_enters_open_set :
    iteration (lane 0) [block 3, block 1] lane_goal
      (seed (lane 0) 0 0 0 6 0 0 State.empty) = .again lane_expanded ∧
    map_find lane_expanded.open_set (lane_ahead.GetIndex (lane 0)) = some (some 4) ∧
    lane_expanded.heap[4]? = some lane_ahead ∧
    (lane_ahead.GetIndex (lane 0), (0 : ℚ)) ∈ lane_expanded.open_pq ∧
    (lane_ahead.traversed_x[1]?, lane_ahead.traversed_y[1]?, lane_ahead.traversed_phi[1]?)
      = (some 1, some 0, some 0) ∧
    ValidityCheck (lane 0) [block 3, block 1] (Node3d.ofPose 1 0 0) = false := by
  decide!

theorem for_body_keeps (c : Conf K Obs Box) (obstacles : List Obs) (current_node : Node3d K)
    (current_ptr : Nat) (st st1 : State K) (i : Nat)
    (h : for_body c obstacles current_node current_ptr st i = some st1) : st.Keeps st1 := by
  obtain ⟨node, _, h1 | ⟨_, _, _, h1⟩⟩ :=
    for_body_cases c obstacles current_node current_ptr st st1 i h
  · rw [h1]; exact ⟨fun _ _ h => h, fun _ _ h => h, [node], rfl⟩
  · rw [h1]
    exact ⟨fun k v h => map_find_append_some _ _ k v h, fun _ _ h => h, [node], rfl⟩

theorem for_loop_keeps (c : Conf K Obs Box) (obstacles : List Obs) (current_node : Node3d K)
    (current_ptr : Nat) (l : List Nat) (st st1 : State K)
    (h : for_loop c obstacles current_node current_ptr l st = some st1) : st.Keeps st1 :=
  for_loop_induction c obstacles current_node current_ptr (fun s => st.Keeps s)
    (fun s s1 i hs hb =>
      hs.trans (for_body_keeps c obstacles current_node current_ptr s s1 i hb))
    l st st1 (State.Keeps.refl st) h

theorem iteration_keeps (c : Conf K Obs Box) (obstacles : List Obs) (end_node : Node3d K)
    (st st2 : State K)
    (h : iteration c obstacles end_node st = .again st2 ∨
      iteration c obstacles end_node st = .broke st2 ∨
      iteration c obstacles end_node st = .left st2) : st.Keeps st2 := by
  rcases h with h | h | h
  · obtain ⟨p, st1, node, rsp, htc, _, _, hloop⟩ :=
      iteration_again_cases c obstacles end_node st st2 h
    exact (take_current_keeps c st st1 _ htc).trans
      (for_loop_keeps c obstacles node p _ st1 st2 hloop)
  · obtain ⟨p, st1, node, rsp, htc, _, _, hload⟩ :=
      iteration_broke_cases c obstacles end_node st st2 h
    exact (take_current_keeps c st st1 _ htc).trans (LoadRSPinCS_keeps c rsp p st1 st2 hload)
  · have : st2 = st := by
      unfold iteration at h
      split at h
      · cases h; rfl
      · cases h
      · split at h
        · cases h
        · split at h
          · cases h
          · split at h <;> cases h
          · split at h <;> cases h
    rw [this]
    exact State.Keeps.refl st

theorem Plan_loop_keeps (c : Conf K Obs Box) (obstacles : List Obs) (end_node : Node3d K) :
    ∀ (fuel pops : Nat) (st : State K) (ret : Bool) (e : Exit) (n : Nat) (st1 : State K),
      Plan_loop c obstacles end_node fuel pops st = some (.returned ret e n st1) →
      st.Keeps st1 := by
  intro fuel
  induction fuel with
  | zero => intro pops st ret e n st1 h; simp [Plan_loop] at h
  | succ fuel ih =>
    intro pops st ret e n st1 h
    rw [Plan_loop] at h
    split at h
    · rename_i st2 hit
      simp only [Option.some.injEq, Outcome.returned.injEq] at h
      rw [← h.2.2.2]
      exact iteration_keeps c obstacles end_node st st2 (Or.inr (Or.inr hit))
    · rename_i st2 hit
      simp only [Option.some.injEq, Outcome.returned.injEq] at h
      rw [← h.2.2.2]
      exact iteration_keeps c obstacles end_node st st2 (Or.inr (Or.inl hit))
    · rename_i st2 hit
      exact (iteration_keeps c obstacles end_node st st2 (Or.inl hit)).trans
        (ih _ _ _ _ _ _ h)
    · simp at h
    · simp at h

theorem for_body_queue (c : Conf K Obs Box) (obstacles : List Obs) (current_node : Node3d K)
    (current_ptr : Nat) (st st1 : State K) (i : Nat)
    (h : for_body c obstacles current_node current_ptr st i = some st1) :
    ∃ pushed, st1.open_pq = st.open_pq ++ pushed ∧
      map_keys st1.open_set = map_keys st.open_set ++ pushed.map Prod.fst := by
  obtain ⟨node, _, h1 | ⟨_, _, _, h1⟩⟩ :=
    for_body_cases c obstacles current_node current_ptr st st1 i h
  · rw [h1]; exact ⟨[], by simp, by simp⟩
  · rw [h1]; exact ⟨[(node.GetIndex c, c.GetCost node)], rfl, by simp [map_keys]⟩

theorem for_loop_queue (c : Conf K Obs Box) (obstacles : List Obs) (current_node : Node3d K)
    (current_ptr : Nat) (l : List Nat) (st st1 : State K)
    (h : for_loop c obstacles current_node current_ptr l st = some st1) :
    ∃ pushed, st1.open_pq = st.open_pq ++ pushed ∧
      map_keys st1.open_set = map_keys st.open_set ++ pushed.map Prod.fst :=
  for_loop_induction c obstacles current_node current_ptr
    (fun s => ∃ pushed, s.open_pq = st.open_pq ++ pushed ∧
      map_keys s.open_set = map_keys st.open_set ++ pushed.map Prod.fst)
    (fun s s1 i hs hb => by
      obtain ⟨a, ha1, ha2⟩ := hs
      obtain ⟨b, hb1, hb2⟩ := for_body_queue c obstacles current_node current_ptr s s1 i hb
      exact ⟨a ++ b, by rw [hb1, ha1, List.append_assoc],
        by rw [hb2, ha2, List.map_append, List.append_assoc]⟩)
    l st st1 ⟨[], by simp, by simp⟩ h

/-- A pass of the loop that pops takes one entry out of the queue; the entries it
pushes are those of the keys it adds to the open set. -/
theorem iteration_queue (c : Conf K Obs Box) (obstacles : List Obs) (end_node : Node3d K)
    (st st2 : State K)
    (h : iteration c obstacles end_node st = .again st2 ∨
      iteration c obstacles end_node st = .broke st2) :
    ∃ e pushed, (e :: st2.open_pq).Perm (st.open_pq ++ pushed) ∧
      map_keys st2.open_set = map_keys st.open_set ++ pushed.map Prod.fst := by
  rcases h with h | h
  · obtain ⟨p, st1, node, rsp, htc, _, _, hloop⟩ :=
      iteration_again_cases c obstacles end_node st st2 h
    obtain ⟨e, hperm, hopen⟩ := take_current_queue c st st1 p htc
    obtain ⟨pushed, hq, hkeys⟩ := for_loop_queue c obstacles node p _ st1 st2 hloop
    refine ⟨e, pushed, ?_, by rw [hkeys, hopen]⟩
    rw [hq, ← List.cons_append]
    exact (hperm.symm).append_right pushed
  · obtain ⟨p, st1, node, rsp, htc, _, _, hload⟩ :=
      iteration_broke_cases c obstacles end_node st st2 h
    obtain ⟨e, hperm, hopen⟩ := take_current_queue c st st1 p htc
    have h2 : st2.open_pq = st1.open_pq ∧ st2.open_set = st1.open_set := by
      unfold LoadRSPinCS at hload
      split at hload
      · cases hload; exact ⟨rfl, rfl⟩
      · cases hload
    refine ⟨e, [], ?_, by rw [h2.2, hopen]; simp⟩
    rw [h2.1, List.append_nil]
    exact hperm.symm

theorem iteration_left (c : Conf K Obs Box) (obstacles : List Obs) (end_node : Node3d K)
    (st st2 : State K) (h : iteration c obstacles end_node st = .left st2) : st2 = st := by
  unfold iteration at h
  split at h
  · cases h; rfl
  · cases h
  · split at h
    · cases h
    · split at h
      · cases h
      · split at h <;> cases h
      · split at h <;> cases h

theorem Plan_loop_queue (c : Conf K Obs Box) (obstacles : List Obs) (end_node : Node3d K) :
    ∀ (fuel pops : Nat) (st : State K) (ret : Bool) (e : Exit) (n : Nat) (st1 : State K),
      Plan_loop c obstacles end_node fuel pops st = some (.returned ret e n st1) →
      ∃ popped pushed : List (Nat × K), pops + popped.length = n ∧
        (popped ++ st1.open_pq).Perm (st.open_pq ++ pushed) ∧
        map_keys st1.open_set = map_keys st.open_set ++ pushed.map Prod.fst := by
  intro fuel
  induction fuel with
  | zero => intro pops st ret e n st1 h; simp [Plan_loop] at h
  | succ fuel ih =>
    intro pops st ret e n st1 h
    rw [Plan_loop] at h
    split at h
    · rename_i st2 hit
      simp only [Option.some.injEq, Outcome.returned.injEq] at h
      obtain ⟨_, _, hn, hst⟩ := h
      subst hst
      rw [iteration_left c obstacles end_node st st2 hit]
      exact ⟨[], [], by simpa using hn, by simp, by simp⟩
    · rename_i st2 hit
      simp only [Option.some.injEq, Outcome.returned.injEq] at h
      obtain ⟨_, _, hn, hst⟩ := h
      subst hst
      obtain ⟨x, pushed, hperm, hkeys⟩ :=
        iteration_queue c obstacles end_node st st2 (Or.inr hit)
      exact ⟨[x], pushed, by simpa using hn, by simpa using hperm, hkeys⟩
    · rename_i st2 hit
      obtain ⟨x, pushed, hperm, hkeys⟩ :=
        iteration_queue c obstacles end_node st st2 (Or.inl hit)
      obtain ⟨popped1, pushed1, hn, hperm1, hkeys1⟩ := ih _ _ _ _ _ _ h
      refine ⟨x :: popped1, pushed ++ pushed1, ?_, ?_, ?_⟩
      · simp only [List.length_cons]
        omega
      · rw [List.cons_append, ← List.append_assoc]
        exact (hperm1.cons x).trans (by
          rw [← List.cons_append]
          exact hperm.append_right pushed1)
      · rw [hkeys1, hkeys, List.map_append, List.append_assoc]
    · simp at h
    · simp at h

/-- C9 (amended): `Plan` does not discard the search state: every entry of the
open set and of the closed set that is present when `Plan` is called is present,
with the same node pointer, when it returns, and every node allocated before
the call is still at its address.  The queue is not cleared either: the entries
popped by the call, one for each pop, together with the queue at return are a
rearrangement of the queue at the call followed by the entry of the start node
and the entries pushed by the call, which are those of the keys that the loop
added to the open set.  The next call starts from that state. -/
theorem Plan_keeps_search_state (c : Conf K Obs Box) (fuel : Nat) (sx sy sphi ex ey ephi : K)
    (obstacles : List Obs) (st : State K) (ret : Bool) (e : Exit) (n : Nat) (st1 : State K)
    (h : Plan c fuel sx sy sphi ex ey ephi obstacles st = some (.returned ret e n st1)) :
    (∀ k v, map_find st.open_set k = some v → map_find st1.open_set k = some v) ∧
    (∀ k v, map_find st.close_set k = some v → map_find st1.close_set k = some v) ∧
    (∃ rest, st1.heap = st.heap ++ rest) ∧
    ∃ popped pushed : List (Nat × K), popped.length = n ∧
      (popped ++ st1.open_pq).Perm
        (st.open_pq ++
          (c.GetIndex sx sy sphi, c.GetCost (Node3d.ofPath sx sy sphi [sx] [sy] [sphi])) ::
            pushed) ∧
      map_keys st1.open_set =
        map_keys (map_insert st.open_set (c.GetIndex sx sy sphi) (some st.heap.length)) ++
          pushed.map Prod.fst := by
  obtain ⟨h1, h2, h3⟩ := (seed_keeps c sx sy sphi ex ey ephi st).trans
    (Plan_loop_keeps c obstacles _ fuel 0 _ ret e n st1 h)
  obtain ⟨popped, pushed, hn, hperm, hkeys⟩ :=
    Plan_loop_queue c obstacles _ fuel 0 _ ret e n st1 h
  refine ⟨h1, h2, h3, popped, pushed, by omega, ?_, hkeys⟩
  simpa [seed, Node3d.GetIndex, Node3d.ofPath] using hperm

/-- The first call of `Plan` on a fresh planner, from `(0, 0, 0)` to `(6, 0, 0)`
with obstacles at `x = 3` and `x = -2`, ends with a shortcut after two pops. -/
theorem lane_first_call :
    Plan (lane 0) 3 0 0 0 6 0 0 [block 3, block (-2)] State.empty =
      some (.returned true .shortcut 2 lane_first) := by
  decide!

/-- The second call with the same arguments empties the queue after one pop. -/
theorem lane_second_call :
    Plan (lane 0) 3 0 0 0 6 0 0 [block 3, block (-2)] lane_first =
      some (.returned true .exhausted 1 lane_second) := by
  decide!

/-- A first call of `Plan` on the planner `toll`, from `(0, 0, 0)` to `(6, 0, 0)`
with an obstacle at `x = 3`, ends with a shortcut after two pops and leaves the
entry of the reverse child in the queue. -/
theorem toll_first_call :
    Plan toll 2 0 0 0 6 0 0 [block 3] State.empty =
      some (.returned true .shortcut 2 toll_left) := by
  decide!

/-- A second call, from `(0, 0, 0)` to `(1/2, 0, 0)`, pops the entry of its own
start index and ends with a shortcut; the entry left by the first call is still
in the queue. -/
theorem toll_second_call :
    Plan toll 1 0 0 0 (1/2) 0 0 [block 3] toll_left =
      some (.returned true .shortcut 1 toll_again) := by
  decide!

/-- C9 (amended) at a concrete input: the second call of `Plan` on the planner
`toll`, entered with one entry in the queue, which is in the queue at return. -/
theorem Plan_keeps_search_state_witness :
    (∀ k v, map_find toll_left.open_set k = some v →
      map_find toll_again.open_set k = some v) ∧
    (∀ k v, map_find toll_left.close_set k = some v →
      map_find toll_again.close_set k = some v) ∧
    (∃ rest, toll_again.heap = toll_left.heap ++ rest) ∧
    ∃ popped pushed : List (Nat × ℚ), popped.length = 1 ∧
      (popped ++ toll_again.open_pq).Perm
        (toll_left.open_pq ++
          (toll.GetIndex 0 0 0, toll.GetCost (Node3d.ofPath 0 0 0 [0] [0] [0])) ::
            pushed) ∧
      map_keys toll_again.open_set =
        map_keys (map_insert toll_left.open_set (toll.GetIndex 0 0 0)
          (some toll_left.heap.length)) ++ pushed.map Prod.fst :=
  Plan_keeps_search_state toll 1 0 0 0 (1/2) 0 0 [block 3] toll_left
    true .shortcut 1 toll_again toll_second_call

/-- C9 (counterexample): on the planner `lane 0`, from `(0, 0, 0)` to `(6, 0, 0)`
with obstacles at `x = 3` and `x = -2`, the first call on a fresh planner ends
with a shortcut after two pops; the second call with the same arguments pops
the node at address 0, which the first call allocated (the start node of the
second call is at address 7), finds every child index in the open set left by
the first call, and ends with an empty queue and no shortcut. -/
theorem second_call_differs_from_first :
    Plan (lane 0) 3 0 0 0 6 0 0 [block 3, block (-2)] State.empty =
      some (.returned true .shortcut 2 lane_first) ∧
    Plan (lane 0) 3 0 0 0 6 0 0 [block 3, block (-2)] lane_first =
      some (.returned true .exhausted 1 lane_second) ∧
    (take_current (lane 0) (seed (lane 0) 0 0 0 6 0 0 lane_first)).map Prod.fst =
      some (some 0) ∧
    0 < lane_first.heap.length ∧
    (seed (lane 0) 0 0 0 6 0 0 lane_first).heap[7]? = some lane_start :=
  ⟨lane_first_call, lane_second_call, by decide!, by decide, by decide!⟩

/-- C10: with an empty obstacle list and a curve generator that returns a
non-empty curve from the start node to the goal, a call of `Plan` with empty
open set, queue and closed set pops once, allocates no child (the nodes it
allocates are the start node, the end node and the terminal node of the
shortcut), and ends with a closed set that holds exactly the terminal node,
whose parent is the start node. -/
theorem open_field_single_shortcut (c : Conf K Obs Box) (fuel : Nat)
    (sx sy sphi ex ey ephi : K) (heap : List (Node3d K))
    (hok : (c.ShortestRSP (Node3d.ofPath sx sy sphi [sx] [sy] [sphi])
      (Node3d.ofPath ex ey ephi [ex] [ey] [ephi])).1 = true)
    (hw : (c.ShortestRSP (Node3d.ofPath sx sy sphi [sx] [sy] [sphi])
      (Node3d.ofPath ex ey ephi [ex] [ey] [ephi])).2.WellFormed) :
    ∃ (bx by_ bphi : K) (p : ReedSheppPath K),
      p = (c.ShortestRSP (Node3d.ofPath sx sy sphi [sx] [sy] [sphi])
        (Node3d.ofPath ex ey ephi [ex] [ey] [ephi])).2 ∧
      p.x.getLast? = some bx ∧ p.y.getLast? = some by_ ∧ p.phi.getLast? = some bphi ∧
      Plan c (fuel + 1) sx sy sphi ex ey ephi ([] : List Obs)
          { heap := heap, open_set := [], open_pq := [], close_set := [] } =
        some (.returned true .shortcut 1
          { heap := heap ++ [Node3d.ofPath sx sy sphi [sx] [sy] [sphi],
              Node3d.ofPath ex ey ephi [ex] [ey] [ephi],
              { Node3d.ofPath bx by_ bphi p.x p.y p.phi with pre := some heap.length }]
            open_set := [(c.GetIndex sx sy sphi, some heap.length)]
            open_pq := []
            close_set := [(c.GetIndex bx by_ bphi, some (heap.length + 2))] }) := by
  obtain ⟨hx, hy, hphi⟩ := hw
  generalize hp : (c.ShortestRSP (Node3d.ofPath sx sy sphi [sx] [sy] [sphi])
      (Node3d.ofPath ex ey ephi [ex] [ey] [ephi])).2 = p at hx hy hphi
  have hy1 : p.y ≠ [] := by
    intro h0; rw [h0] at hy; exact hx (List.length_eq_zero.1 hy.symm)
  have hphi1 : p.phi ≠ [] := by
    intro h0; rw [h0] at hphi; exact hx (List.length_eq_zero.1 hphi.symm)
  refine ⟨p.x.getLast hx, p.y.getLast hy1, p.phi.getLast hphi1, p, rfl,
    List.getLast?_eq_getLast _ hx, List.getLast?_eq_getLast _ hy1,
    List.getLast?_eq_getLast _ hphi1, ?_⟩
  have hcheck : RSPCheck c ([] : List Obs) p = .ok true := by
    rw [RSPCheck, RSPCheck_from_true_iff]
    intro i hi
    have hi1 : i < p.x.length := List.mem_range.1 hi
    exact ⟨_, _, _, List.getElem?_eq_getElem hi1, List.getElem?_eq_getElem (hy ▸ hi1),
      List.getElem?_eq_getElem (hphi ▸ hi1), rfl⟩
  have hae : AnalyticExpansion c ([] : List Obs) (Node3d.ofPath sx sy sphi [sx] [sy] [sphi])
      (Node3d.ofPath ex ey ephi [ex] [ey] [ephi]) = .ok (true, p) :=
    (AnalyticExpansion_eq_ok_true c [] _ _ p).2 ⟨hok, hp, hcheck⟩
  have hnode : (heap ++ [Node3d.ofPath sx sy sphi [sx] [sy] [sphi],
      Node3d.ofPath ex ey ephi [ex] [ey] [ephi]])[heap.length]? =
      some (Node3d.ofPath sx sy sphi [sx] [sy] [sphi]) := by
    rw [List.getElem?_append_right (le_refl _)]
    simp
  have hload : LoadRSPinCS c p heap.length
      { heap := heap ++ [Node3d.ofPath sx sy sphi [sx] [sy] [sphi],
          Node3d.ofPath ex ey ephi [ex] [ey] [ephi]]
        open_set := [(c.GetIndex sx sy sphi, some heap.length)]
        open_pq := []
        close_set := [] } =
      .ok { heap := heap ++ [Node3d.ofPath sx sy sphi [sx] [sy] [sphi],
              Node3d.ofPath ex ey ephi [ex] [ey] [ephi],
              { Node3d.ofPath (p.x.getLast hx) (p.y.getLast hy1) (p.phi.getLast hphi1)
                  p.x p.y p.phi with pre := some heap.length }]
            open_set := [(c.GetIndex sx sy sphi, some heap.length)]
            open_pq := []
            close_set := [(c.GetIndex (p.x.getLast hx) (p.y.getLast hy1)
              (p.phi.getLast hphi1), some (heap.length + 2))] } := by
    unfold LoadRSPinCS
    rw [List.getLast?_eq_getLast _ hx, List.getLast?_eq_getLast _ hy1,
      List.getLast?_eq_getLast _ hphi1]
    simp [map_insert, map_find, Node3d.GetIndex, Node3d.ofPath]
  rw [Plan, Plan_loop, iteration, take_current_seed]
  simp only [hnode, hae, hload]

/-- C10 at a concrete input: the planner `lane 0` from `(0, 0, 0)` to `(6, 0, 0)`
without obstacles. -/
theorem open_field_single_shortcut_witness :
    ∃ (bx by_ bphi : ℚ) (p : ReedSheppPath ℚ),
      p = ((lane 0).ShortestRSP (Node3d.ofPath 0 0 0 [0] [0] [0])
        (Node3d.ofPath 6 0 0 [6] [0] [0])).2 ∧
      p.x.getLast? = some bx ∧ p.y.getLast? = some by_ ∧ p.phi.getLast? = some bphi ∧
      Plan (lane 0) (0 + 1) 0 0 0 6 0 0 ([] : List Rect)
          { heap := [], open_set := [], open_pq := [], close_set := [] } =
        some (.returned true .shortcut 1
          { heap := [] ++ [Node3d.ofPath 0 0 0 [0] [0] [0],
              Node3d.ofPath 6 0 0 [6] [0] [0],
              { Node3d.ofPath bx by_ bphi p.x p.y p.phi with
                pre := some ([] : List (Node3d ℚ)).length }]
            open_set := [((lane 0).GetIndex 0 0 0, some ([] : List (Node3d ℚ)).length)]
            open_pq := []
            close_set := [((lane 0).GetIndex bx by_ bphi,
              some (([] : List (Node3d ℚ)).length + 2))] }) :=
  open_field_single_shortcut (lane 0) 0 0 0 0 6 0 0 [] (by decide!)
    ⟨by decide!, by decide!, by decide!⟩

/-- With a curve generator that reports success and writes no pose,
`AnalyticExpansion` returns true and `LoadRSPinCS` reads `back()` of empty
vectors. -/
theorem empty_curve_is_loaded :
    AnalyticExpansion void [] lane_start lane_goal = .ok (true, ⟨[], [], []⟩) ∧
    LoadRSPinCS void ⟨[], [], []⟩ 0 (seed void 0 0 0 6 0 0 State.empty) =
      .error .back_of_empty ∧
    Plan void 1 0 0 0 6 0 0 [] State.empty = some (.undefined .back_of_empty) := by
  refine ⟨by decide!, by decide!, by decide!⟩

/-- C11: when `AnalyticExpansion` succeeds for the popped node with a curve that
has a sampled pose, `LoadRSPinCS` allocates one node: its pose is the last
entry of `x`, `y` and `phi`, its segment is the curve, its parent is the popped
node; the node is stored in the closed set under its index unless that index
is a key already; open set and queue are not touched; and the loop is left
right after this pass, with no further pop or expansion. -/
theorem shortcut_materialised (c : Conf K Obs Box) (obstacles : List Obs)
    (end_node : Node3d K) (st st1 : State K) (p : Nat) (node : Node3d K)
    (rsp : ReedSheppPath K) (fuel pops : Nat)
    (htc : take_current c st = some (some p, st1)) (hnode : st1.heap[p]? = some node)
    (hae : AnalyticExpansion c obstacles node end_node = .ok (true, rsp))
    (hne : rsp.x ≠ []) :
    ∃ (bx by_ bphi : K) (st2 : State K),
      rsp.x.getLast? = some bx ∧ rsp.y.getLast? = some by_ ∧
      rsp.phi.getLast? = some bphi ∧
      LoadRSPinCS c rsp p st1 = .ok st2 ∧
      st2.heap = st1.heap ++
        [{ Node3d.ofPath bx by_ bphi rsp.x rsp.y rsp.phi with pre := some p }] ∧
      st2.open_set = st1.open_set ∧ st2.open_pq = st1.open_pq ∧
      (map_find st1.close_set (c.GetIndex bx by_ bphi) = none →
        st2.close_set = st1.close_set ++ [(c.GetIndex bx by_ bphi, some st1.heap.length)]) ∧
      ((map_find st1.close_set (c.GetIndex bx by_ bphi)).isSome = true →
        st2.close_set = st1.close_set) ∧
      iteration c obstacles end_node st = .broke st2 ∧
      Plan_loop c obstacles end_node (fuel + 1) pops st =
        some (.returned true .shortcut (pops + 1) st2) := by
  have hcheck := ((AnalyticExpansion_eq_ok_true c obstacles _ _ rsp).1 hae).2.2
  have hpos : 0 < rsp.x.length := List.length_pos.2 hne
  obtain ⟨_, _, _, _, hy, hphi, _⟩ := (RSPCheck_true_iff c obstacles rsp).1 hcheck 0 hpos
  have hy1 : rsp.y ≠ [] := List.length_pos.1 (List.getElem?_eq_some_iff.1 hy).1
  have hphi1 : rsp.phi ≠ [] := List.length_pos.1 (List.getElem?_eq_some_iff.1 hphi).1
  have hload : LoadRSPinCS c rsp p st1 = .ok
      { st1 with
        heap := st1.heap ++
          [{ Node3d.ofPath (rsp.x.getLast hne) (rsp.y.getLast hy1) (rsp.phi.getLast hphi1)
              rsp.x rsp.y rsp.phi with pre := some p }]
        close_set := map_insert st1.close_set
          (c.GetIndex (rsp.x.getLast hne) (rsp.y.getLast hy1) (rsp.phi.getLast hphi1))
          (some st1.heap.length) } := by
    unfold LoadRSPinCS
    rw [List.getLast?_eq_getLast _ hne, List.getLast?_eq_getLast _ hy1,
      List.getLast?_eq_getLast _ hphi1]
    rfl
  have hit0 : ∀ st2, LoadRSPinCS c rsp p st1 = .ok st2 →
      iteration c obstacles end_node st = .broke st2 := by
    intro st2 h2
    simp only [iteration, htc, hnode, hae, h2]
  have hit := hit0 _ hload
  refine ⟨rsp.x.getLast hne, rsp.y.getLast hy1, rsp.phi.getLast hphi1, _,
    List.getLast?_eq_getLast _ hne, List.getLast?_eq_getLast _ hy1,
    List.getLast?_eq_getLast _ hphi1, hload, rfl, rfl, rfl, ?_, ?_, hit, ?_⟩
  · intro h
    simp only [map_insert, h, Option.isSome_none, Bool.false_eq_true, if_false]
  · intro h
    simp only [map_insert, h, if_true]
  · rw [Plan_loop, hit]

/-- C11 at a concrete input: the run of `lane 0` from `(0, 0, 0)` to `(1/2, 0, 0)`
without obstacles. -/
theorem shortcut_materialised_witness :
    ∃ (bx by_ bphi : ℚ) (st2 : State ℚ),
      [0, 1/4, (1/2 : ℚ)].getLast? = some bx ∧ [0, 0, (0 : ℚ)].getLast? = some by_ ∧
      [0, 0, (0 : ℚ)].getLast? = some bphi ∧
      LoadRSPinCS (lane 0) ⟨[0, 1/4, 1/2], [0, 0, 0], [0, 0, 0]⟩ 0 near_popped = .ok st2 ∧
      st2.heap = near_popped.heap ++
        [{ Node3d.ofPath bx by_ bphi [0, 1/4, 1/2] [0, 0, 0] [0, 0, 0] with pre := some 0 }] ∧
      st2.open_set = near_popped.open_set ∧ st2.open_pq = near_popped.open_pq ∧
      (map_find near_popped.close_set ((lane 0).GetIndex bx by_ bphi) = none →
        st2.close_set = near_popped.close_set ++
          [((lane 0).GetIndex bx by_ bphi, some near_popped.heap.length)]) ∧
      ((map_find near_popped.close_set ((lane 0).GetIndex bx by_ bphi)).isSome = true →
        st2.close_set = near_popped.close_set) ∧
      iteration (lane 0) [] near_goal (seed (lane 0) 0 0 0 (1/2) 0 0 State.empty) =
        .broke st2 ∧
      Plan_loop (lane 0) [] near_goal (0 + 1) 0 (seed (lane 0) 0 0 0 (1/2) 0 0 State.empty) =
        some (.returned true .shortcut (0 + 1) st2) :=
  shortcut_materialised (lane 0) [] near_goal (seed (lane 0) 0 0 0 (1/2) 0 0 State.empty)
    near_popped 0 lane_start ⟨[0, 1/4, 1/2], [0, 0, 0], [0, 0, 0]⟩ 0 0
    (by decide!) (by decide!) (by decide!) (by decide)

/-- A pass of the loop that reaches the end of the body leaves the index it popped
in the open set and does not touch the closed set. -/
theorem popped_index_stays_open (c : Conf K Obs Box) (obstacles : List Obs)
    (end_node : Node3d K) (st st2 : State K)
    (h : iteration c obstacles end_node st = .again st2) :
    ∃ e ∈ st.open_pq, (map_find st2.open_set e.1).isSome = true ∧
      st2.close_set = st.close_set := by
  obtain ⟨p, st1, node, rsp, htc, _, _, hloop⟩ :=
    iteration_again_cases c obstacles end_node st st2 h
  obtain ⟨e, he, _, _, _, _, hopen⟩ := take_current_cases c st st1 _ htc
  have hk := (for_loop_keeps c obstacles node p _ st1 st2 hloop).1
  refine ⟨e, he, ?_, iteration_again_close_set c obstacles end_node st st2 h⟩
  rcases hopen with ⟨h1, h2⟩ | ⟨_, h2, _⟩
  · rw [hk e.1 (some p) (by rw [h2]; exact h1)]
    rfl
  · cases h2

/-- C13 (the failing input): from `(0, 0, 0)` to `(6, 0, 0)` with obstacles at `x = 3`
and `x = 1` the first pass pops the start node (address 0, index 4020100), the
shortcut fails and the children are generated; after the pass the index
4020100 is still a key of the open set and the closed set is empty. -/
theorem popped_node_is_not_closed :
    (take_current (lane 0) (seed (lane 0) 0 0 0 6 0 0 State.empty)).map Prod.fst =
      some (some 0) ∧
    lane_start.GetIndex (lane 0) = 4020100 ∧
    AnalyticExpansion (lane 0) [block 3, block 1] lane_start lane_goal =
      .ok (false, ⟨[0, 3, 6], [0, 0, 0], [0, 0, 0]⟩) ∧
    iteration (lane 0) [block 3, block 1] lane_goal
      (seed (lane 0) 0 0 0 6 0 0 State.empty) = .again lane_expanded ∧
    map_find lane_expanded.open_set 4020100 = some (some 0) ∧
    map_find lane_expanded.close_set 4020100 = none ∧
    lane_expanded.close_set = [] := by
  refine ⟨by decide!, by decide!, by decide!, by decide!, by decide, by decide, by decide⟩

/-- A property of the members that holds when the loop is entered and is kept by
the pop and lookup, by each pass over a primitive and by `LoadRSPinCS` holds at
every point of the run; `J` is what the steps may assume of `current_node`. -/
theorem Point_induction (c : Conf K Obs Box) (obstacles : List Obs) (end_node : Node3d K)
    (s0 : State K) (I : State K → Prop) (J : State K → Nat → Prop) (h0 : I s0)
    (htake : ∀ st p st1, I st → take_current c st = some (p, st1) →
      I st1 ∧ ∀ q, p = some q → J st1 q)
    (hbody : ∀ node q st st1 i, I st → J st q →
      for_body c obstacles node q st i = some st1 → I st1 ∧ J st1 q)
    (hload : ∀ rsp q st st1, I st → J st q → LoadRSPinCS c rsp q st = .ok st1 → I st1) :
    ∀ b t, Point c obstacles end_node s0 b t → I t := by
  have hloop : ∀ node q l st st1, I st → J st q →
      for_loop c obstacles node q l st = some st1 → I st1 := by
    intro node q l st st1 hi hj hl
    exact (for_loop_induction c obstacles node q (fun s => I s ∧ J s q)
      (fun s s1 i hs hb => hbody node q s s1 i hs.1 hs.2 hb) l st st1 ⟨hi, hj⟩ hl).1
  have hagain : ∀ st st2, I st → iteration c obstacles end_node st = .again st2 → I st2 := by
    intro st st2 hi hit
    obtain ⟨p, st1, node, rsp, htc, _, _, hl⟩ :=
      iteration_again_cases c obstacles end_node st st2 hit
    obtain ⟨hi1, hj1⟩ := htake st _ st1 hi htc
    exact hloop node p _ st1 st2 hi1 (hj1 p rfl) hl
  have hhead : ∀ k st, loop_head c obstacles end_node k s0 = some st → I st :=
    fun k st hk => loop_head_induction c obstacles end_node I hagain k s0 st h0 hk
  intro b t hpt
  cases hpt with
  | head k st hk => exact hhead k t hk
  | popped k st st1 p hk htc => exact (htake st p t (hhead k st hk) htc).1
  | child k st st1 _ p j node rsp hk htc _ _ _ hl =>
    obtain ⟨hi1, hj1⟩ := htake st _ st1 (hhead k st hk) htc
    exact hloop node p _ st1 t hi1 (hj1 p rfl) hl
  | loaded k st st1 _ p node rsp hk htc _ _ hl =>
    obtain ⟨hi1, hj1⟩ := htake st _ st1 (hhead k st hk) htc
    exact hload rsp p st1 t hi1 (hj1 p rfl) hl

theorem for_body_linked (c : Conf K Obs Box) (obstacles : List Obs) (current_node : Node3d K)
    (current_ptr : Nat) (st st1 : State K) (i : Nat) (ht : st.Linked)
    (h : for_body c obstacles current_node current_ptr st i = some st1) : st1.Linked := by
  obtain ⟨node, _, h1 | ⟨_, _, hnone, h1⟩⟩ :=
    for_body_cases c obstacles current_node current_ptr st st1 i h
  · subst h1
    intro e he
    obtain ⟨p, hp, hlt⟩ := ht e he
    exact ⟨p, hp, by simp only [List.length_append, List.length_singleton]; omega⟩
  · subst h1
    intro e he
    simp only [List.mem_append, List.mem_singleton] at he
    rcases he with he | he
    · obtain ⟨p, hp, hlt⟩ := ht e he
      refine ⟨p, map_find_append_some _ _ _ _ hp, ?_⟩
      simp only [List.length_append, List.length_singleton]
      omega
    · subst he
      refine ⟨st.heap.length, map_find_append_new _ _ _ hnone, ?_⟩
      simp only [List.length_append, List.length_singleton]
      omega

/-- C17: at every point of a run of `Plan` started with empty open set and queue,
every index in the queue is a key of the open set mapped to a pointer to an
allocated node; so the lookup after a pop finds its key, creates no entry, and
gives a pointer to a node. -/
theorem queue_entries_are_open_keys (c : Conf K Obs Box) (obstacles : List Obs)
    (sx sy sphi ex ey ephi : K) (heap : List (Node3d K)) (closed : NodeMap) (b : Bool)
    (t : State K)
    (h : Point c obstacles (Node3d.ofPath ex ey ephi [ex] [ey] [ephi])
      (seed c sx sy sphi ex ey ephi
        { heap := heap, open_set := [], open_pq := [], close_set := closed }) b t) :
    (∀ e ∈ t.open_pq, ∃ p node, map_find t.open_set e.1 = some (some p) ∧
      t.heap[p]? = some node) ∧
    (∀ p t1, take_current c t = some (p, t1) →
      ∃ q node, p = some q ∧ t1.open_set = t.open_set ∧ t1.heap[q]? = some node) := by
  have hseed : (seed c sx sy sphi ex ey ephi
      { heap := heap, open_set := [], open_pq := [], close_set := closed }).Linked := by
    intro e he
    simp only [seed, List.nil_append, List.mem_singleton] at he
    subst he
    refine ⟨heap.length, ?_, by simp [seed]⟩
    simp [seed, map_insert, map_find, List.lookup_cons]
  have hl : t.Linked :=
    Point_induction c obstacles _ _ State.Linked (fun _ _ => True) hseed
      (fun st p st1 hi htc => ⟨(take_current_linked c st st1 p hi htc).1, fun _ _ => trivial⟩)
      (fun node q st st1 i hi _ hb => ⟨for_body_linked c obstacles node q st st1 i hi hb, trivial⟩)
      (fun rsp q st st1 hi _ hld => LoadRSPinCS_linked c rsp q st st1 hi hld) b t h
  refine ⟨?_, fun p t1 htc => (take_current_linked c t t1 p hl htc).2⟩
  intro e he
  obtain ⟨p, hp, hlt⟩ := hl e he
  exact ⟨p, _, hp, List.getElem?_eq_getElem hlt⟩

/-- C17 at a concrete input: the state at the first evaluation of the loop
condition in the run of `lane 0` from `(0, 0, 0)` to `(6, 0, 0)`. -/
theorem queue_entries_are_open_keys_witness :
    (∀ e ∈ (seed (lane 0) 0 0 0 6 0 0 State.empty).open_pq, ∃ p node,
      map_find (seed (lane 0) 0 0 0 6 0 0 State.empty).open_set e.1 = some (some p) ∧
      (seed (lane 0) 0 0 0 6 0 0 State.empty).heap[p]? = some node) ∧
    (∀ p t1, take_current (lane 0) (seed (lane 0) 0 0 0 6 0 0 State.empty) = some (p, t1) →
      ∃ q node, p = some q ∧
        t1.open_set = (seed (lane 0) 0 0 0 6 0 0 State.empty).open_set ∧
        t1.heap[q]? = some node) :=
  queue_entries_are_open_keys (lane 0) [block 3] 0 0 0 6 0 0 [] [] false
    (seed (lane 0) 0 0 0 6 0 0 State.empty) (Point.head 0 _ rfl)

theorem Next_node_generator_pre (c : Conf K Obs Box) (current_node : Node3d K)
    (current_ptr i : Nat) (node : Node3d K)
    (h : Next_node_generator c current_node current_ptr i = some node) :
    node.pre = some current_ptr := by
  unfold Next_node_generator at h
  split at h
  · cases h
  · cases h; rfl

theorem for_body_anchored (c : Conf K Obs Box) (obstacles : List Obs) (s : Nat)
    (current_node : Node3d K) (current_ptr : Nat) (st st1 : State K) (i : Nat)
    (ha : st.Anchored s) (hp : Rooted st.heap s current_ptr)
    (h : for_body c obstacles current_node current_ptr st i = some st1) :
    st1.Anchored s ∧ Rooted st1.heap s current_ptr := by
  obtain ⟨node, hn, h1 | ⟨_, _, _, h1⟩⟩ :=
    for_body_cases c obstacles current_node current_ptr st st1 i h
  · subst h1
    exact ⟨⟨fun k q hk => (ha.1 k q hk).mono _, fun k q hk => (ha.2 k q hk).mono _⟩,
      hp.mono _⟩
  · subst h1
    refine ⟨⟨?_, fun k q hk => (ha.2 k q hk).mono _⟩, hp.mono _⟩
    intro k q hk
    have hcases := map_find_insert_cases st.open_set (node.GetIndex c) k
      (some st.heap.length) q (by
        unfold map_insert
        split
        · rename_i hsome
          exact absurd hsome (by simp [*])
        · exact hk)
    rcases hcases with h2 | h2
    · exact (ha.1 k q h2).mono _
    · have hq : q = st.heap.length := (Option.some.inj h2).symm
      subst hq
      exact Rooted.step _ current_ptr node (by simp)
        (Next_node_generator_pre c current_node current_ptr i node hn) hp.lt (hp.mono _)

/-- C12: at every point of a run of `Plan` started with empty open set, queue and
closed set, every node that the open set or the closed set points to leads,
along the parent pointers, to the start node of the run, which has no parent:
there is a finite list of addresses from the node to the start node in which
each address is the parent of the one before and was allocated before it, so
that no node is met twice. -/
theorem parent_chain_reaches_start (c : Conf K Obs Box) (obstacles : List Obs)
    (sx sy sphi ex ey ephi : K) (heap : List (Node3d K)) (b : Bool) (t : State K)
    (h : Point c obstacles (Node3d.ofPath ex ey ephi [ex] [ey] [ephi])
      (seed c sx sy sphi ex ey ephi
        { heap := heap, open_set := [], open_pq := [], close_set := [] }) b t)
    (k p : Nat)
    (hp : map_find t.open_set k = some (some p) ∨ map_find t.close_set k = some (some p)) :
    t.heap[heap.length]? = some (Node3d.ofPath sx sy sphi [sx] [sy] [sphi]) ∧
    Rooted t.heap heap.length p ∧
    ∃ l : List Nat,
      List.Chain (fun x q => ∃ node, t.heap[x]? = some node ∧ node.pre = some q ∧ q < x) p l ∧
      (p :: l).getLast? = some heap.length ∧ (p :: l).Pairwise (fun x q => q < x) ∧
      ∃ node, t.heap[heap.length]? = some node ∧ node.pre = none := by
  have hstart : (seed c sx sy sphi ex ey ephi
      { heap := heap, open_set := [], open_pq := [], close_set := [] }).heap[heap.length]? =
      some (Node3d.ofPath sx sy sphi [sx] [sy] [sphi]) := by
    simp only [seed]
    rw [List.getElem?_append_right (le_refl _)]
    simp
  have hseed : (seed c sx sy sphi ex ey ephi
      { heap := heap, open_set := [], open_pq := [], close_set := [] }).Anchored
      heap.length := by
    refine ⟨?_, ?_⟩
    · intro k1 q hk
      have hq : q = heap.length := by
        simp only [seed, map_insert, map_find, List.lookup_nil, Option.isSome_none,
          Bool.false_eq_true, if_false, List.nil_append, List.lookup_cons] at hk
        split at hk
        · exact (Option.some.inj (Option.some.inj hk)).symm
        · cases hk
      subst hq
      exact Rooted.root _ hstart rfl
    · intro k1 q hk
      simp [seed, map_find] at hk
  have hI := Point_induction c obstacles _ _
    (fun s => s.Anchored heap.length ∧
      s.heap[heap.length]? = some (Node3d.ofPath sx sy sphi [sx] [sy] [sphi]))
    (fun s q => Rooted s.heap heap.length q) ⟨hseed, hstart⟩
    (fun st p1 st1 hi htc =>
      have h1 := take_current_anchored c heap.length st st1 p1 hi.1 htc
      ⟨⟨h1.1, by
        obtain ⟨_, _, _, _, hheap, _, _⟩ := take_current_cases c st st1 p1 htc
        rw [hheap]; exact hi.2⟩, h1.2⟩)
    (fun node q st st1 i hi hj hb =>
      have h1 := for_body_anchored c obstacles heap.length node q st st1 i hi.1 hj hb
      ⟨⟨h1.1, by
        obtain ⟨rest, hrest⟩ := (for_body_keeps c obstacles node q st st1 i hb).2.2
        rw [hrest, List.getElem?_append_left (List.getElem?_eq_some_iff.1 hi.2).1]
        exact hi.2⟩, h1.2⟩)
    (fun rsp q st st1 hi hj hld =>
      ⟨LoadRSPinCS_anchored c heap.length rsp q st st1 hi.1 hj hld, by
        obtain ⟨rest, hrest⟩ := (LoadRSPinCS_keeps c rsp q st st1 hld).2.2
        rw [hrest, List.getElem?_append_left (List.getElem?_eq_some_iff.1 hi.2).1]
        exact hi.2⟩) b t h
  have hr : Rooted t.heap heap.length p := by
    rcases hp with hp | hp
    · exact hI.1.1 k p hp
    · exact hI.1.2 k p hp
  exact ⟨hI.2, hr, hr.chain⟩

/-- C12 at a concrete input: the terminal node (address 2) in the closed set at
the end of the run of `lane 0` from `(0, 0, 0)` to `(1/2, 0, 0)`. -/
theorem parent_chain_reaches_start_witness :
    near_final.heap[([] : List (Node3d ℚ)).length]? =
      some (Node3d.ofPath 0 0 0 [0] [0] [0]) ∧
    Rooted near_final.heap ([] : List (Node3d ℚ)).length 2 ∧
    ∃ l : List Nat,
      List.Chain (fun x q => ∃ node, near_final.heap[x]? = some node ∧
        node.pre = some q ∧ q < x) 2 l ∧
      (2 :: l).getLast? = some ([] : List (Node3d ℚ)).length ∧
      (2 :: l).Pairwise (fun x q => q < x) ∧
      ∃ node, near_final.heap[([] : List (Node3d ℚ)).length]? = some node ∧
        node.pre = none :=
  parent_chain_reaches_start (lane 0) [] 0 0 0 (1/2) 0 0 [] true near_final
    near_final_point 4020100 2 (Or.inr (by decide))

/-- When the index of the child is a key of the open set, the pass over the
primitive changes neither the open set nor the queue, whatever the costs. -/
theorem for_body_present_unchanged (c : Conf K Obs Box) (obstacles : List Obs)
    (current_node : Node3d K) (current_ptr : Nat) (st st1 : State K) (i : Nat)
    (node : Node3d K) (hn : Next_node_generator c current_node current_ptr i = some node)
    (hpresent : (map_find st.open_set (node.GetIndex c)).isSome = true)
    (h : for_body c obstacles current_node current_ptr st i = some st1) :
    st1.open_set = st.open_set ∧ st1.open_pq = st.open_pq := by
  obtain ⟨node1, hn1, h1 | ⟨_, _, hnone, _⟩⟩ :=
    for_body_cases c obstacles current_node current_ptr st st1 i h
  · subst h1
    exact ⟨rfl, rfl⟩
  · rw [hn] at hn1
    cases hn1
    rw [hnone] at hpresent
    cases hpresent

/-- C16 (the failing input): planner `toll` from `(0, 0, 0)` to `(6, 0, 0)` with an
obstacle on the goal.  In the fifth pass the node at `x = -4` (address 14) is
expanded; its forward child ends at `x = -2`, is valid, has an index (3940100)
that is in the open set and not in the closed set, and has cost 1, below the
cost 2 of the node stored under that index (address 2).  The pass leaves the
open set and the queue as they are: the stored node is not replaced. -/
theorem cheaper_child_is_discarded :
    loop_head toll [block 6] lane_goal 4 (seed toll 0 0 0 6 0 0 State.empty) =
      some toll_head ∧
    take_current toll toll_head = some (some 14, { toll_head with open_pq := [] }) ∧
    toll_head.heap[14]? = some (hop (-2) 2 false) ∧
    for_loop toll [block 6] (hop (-2) 2 false) 14 [0, 1] { toll_head with open_pq := [] } =
      some toll_before ∧
    Next_node_generator toll (hop (-2) 2 false) 14 2 = some (hop (-4) 14 true) ∧
    ValidityCheck toll [block 6] (hop (-4) 14 true) = true ∧
    (hop (-4) 14 true).GetIndex toll = 3940100 ∧
    map_find toll_before.close_set 3940100 = none ∧
    map_find toll_before.open_set 3940100 = some (some 2) ∧
    toll_before.heap[2]? = some (hop 0 0 false) ∧
    toll.GetCost (hop (-4) 14 true) < toll.GetCost (hop 0 0 false) ∧
    for_body toll [block 6] (hop (-2) 2 false) 14 toll_before 2 =
      some { toll_before with heap := toll_before.heap ++ [hop (-4) 14 true] } := by
  refine ⟨by decide!, by decide!, by decide!, by decide!, by decide!, by decide!, by decide!,
    by decide!, by decide!, by decide!, by decide!, by decide!⟩

/-- C1 (the failing input): from `(0, 0, 0)` to `(6, 0, 0)` with obstacles at
`x = 3`, `x = -2` and `x = 2` the curve to the goal collides and every child is
rejected, so the queue empties after one pop without a shortcut; `Plan` returns
true. -/
theorem Plan_returns_true_when_exhausted :
    Plan (lane 0) 2 0 0 0 6 0 0 [block 3, block (-2), block 2] State.empty =
      some (.returned true .exhausted 1
        { heap := [lane_start, lane_goal, lane_back, lane_back, lane_ahead, lane_ahead]
          open_set := [(4020100, some 0)]
          open_pq := []
          close_set := [] }) := by
  decide!

end Search

end HybridAStar
